import Mathlib

/-!
Verification development for the Huawei VRP log analyzer (analyzer.js).

Text is modelled as `List Char` (written `Str` below).  JavaScript string
operations used by the analyzer (trim, toLowerCase, split on a literal
marker, the two regex-based splitters, regex field matchers, parseInt and
parseFloat) are embedded as executable Lean functions that mirror the
source code of `analyzer.js`.  JavaScript exceptions are modelled with an
optional error component, `null` with `Option`, and the object holding the
parsed facts with the `Model` structure mirroring `newModel()`.
-/

set_option maxRecDepth 10000

namespace Analyzer

/-- Text, modelled as a list of characters. -/
abbrev Str := List Char

/-- Shorthand turning a Lean string literal into the `Str` representation. -/
def str (s : String) : Str := s.data

/-- The whitespace class of JavaScript regexes and `String.prototype.trim`
restricted to the ASCII characters that can occur in the captures. -/
def isWs (c : Char) : Bool :=
  c = ' ' || c = '\t' || c = '\n' || c = '\r' || c = '\x0b' || c = '\x0c'

/-- ASCII decimal digit test (JS `\d` and `[0-9]`). -/
def isDigitCh (c : Char) : Bool := '0' ≤ c && c ≤ '9'

/-- ASCII letter lowering, modelling `String.prototype.toLowerCase` on the
ASCII command labels and interface names handled by the analyzer. -/
def lowerCh (c : Char) : Char :=
  if 'A' ≤ c && c ≤ 'Z' then Char.ofNat (c.toNat + 32) else c

/-- `lower` from analyzer.js: `String(s || "").toLowerCase()`. -/
def jsLower (s : Str) : Str := s.map lowerCh

/-- Case-insensitive character equality (for `/i` regex flags). -/
def ciEq (a b : Char) : Bool := lowerCh a = lowerCh b

/-- Case-insensitive test that `p` is a prefix of `s` (for `/i` literals). -/
def ciStarts (p s : Str) : Bool :=
  match p, s with
  | [], _ => true
  | _ :: _, [] => false
  | a :: p', b :: s' => ciEq a b && ciStarts p' s'

/-- Drop leading whitespace (one half of `String.prototype.trim`). -/
def trimLeft (s : Str) : Str := s.dropWhile (fun c => isWs c)

/-- Drop trailing whitespace. -/
def trimRight (s : Str) : Str := (trimLeft s.reverse).reverse

/-- `String.prototype.trim`: drop whitespace from both ends. -/
def jsTrim (s : Str) : Str := trimLeft (trimRight s)

/-- Substring test: JS `raw.includes(sub)` for a non-empty literal. -/
def includesSub (sub s : Str) : Bool :=
  match s with
  | [] => sub.isEmpty
  | _ :: rest => sub.isPrefixOf s || includesSub sub rest

/-- Fuel-driven splitter on a literal separator, modelling
`String.prototype.split(sep)` for a non-empty separator `sep`.
`acc` holds the current segment reversed.  The fuel is always
instantiated to more than the length of the text, so the
fuel-exhausted default branch is never reached on the wrapper. -/
def splitOnAux (sep : Str) : Nat → Str → Str → List Str
  | 0, acc, s => [acc.reverse ++ s]
  | _ + 1, acc, [] => [acc.reverse]
  | fuel + 1, acc, c :: rest =>
    if sep.isPrefixOf (c :: rest) then
      acc.reverse :: splitOnAux sep fuel [] (List.drop sep.length (c :: rest))
    else
      splitOnAux sep fuel (c :: acc) rest

/-- `raw.split(sep)` for the literal section marker. -/
def splitOnStr (sep s : Str) : List Str := splitOnAux sep (s.length + 1) [] s

/-- The literal section delimiter `MARKER` from analyzer.js. -/
def MARKER : Str := str "=========######HUAWEI#####========="

/-- Lookahead `<[^>]+>`: a prompt-shaped text begins here (used by the
heuristic split `/\n(?=<[^>]+>)/`). -/
def promptAhead (s : Str) : Bool :=
  match s with
  | '<' :: rest =>
    let mid := rest.takeWhile (fun c => c ≠ '>')
    let rest' := rest.dropWhile (fun c => c ≠ '>')
    !mid.isEmpty && rest'.headD ' ' = '>'
  | _ => false

/-- Lookahead `dis(?:play)?\s+` at the start of `s` (case-insensitive):
the keyword `dis` or `display` followed by at least one whitespace
character.  The regex engine first tries the longer alternative. -/
def disAhead (s : Str) : Bool :=
  (ciStarts (str "display") s && isWs ((s.drop 7).headD 'x')) ||
  (ciStarts (str "dis") s && isWs ((s.drop 3).headD 'x'))

/-- Is this character a JS line terminator relevant here (multiline `^`
matches after it, `.` excludes it, multiline `$` matches before it)? -/
def isNl (c : Char) : Bool := c = '\n' || c = '\r'

/-- Generic scanner for split regexes of the shape
`/\n(?=LOOK1)|(?=^LOOK2)/im` as used by `splitBlocks`
(`/\n(?=<[^>]+>)|(?=^dis(?:play)?\s+)/im`) and by the license splitter.
The first alternative consumes the newline; the second is a zero-width
split at a line start, skipped when the current segment is empty
(JavaScript `split` never emits an empty piece for an empty match at the
current position).  `als` records whether the scanner sits just after a
line terminator (`\n` or a lone `\r`), where a multiline `^` matches. -/
def splitScan (look1 look2 : Str → Bool) : Str → Bool → Str → List Str
  | acc, _, [] => [acc.reverse]
  | acc, als, c :: rest =>
    if c = '\n' && look1 rest then
      acc.reverse :: splitScan look1 look2 [] true rest
    else if als && !acc.isEmpty && look2 (c :: rest) then
      acc.reverse :: splitScan look1 look2 [c] (isNl c) rest
    else
      splitScan look1 look2 (c :: acc) (isNl c) rest

/-- The heuristic block split of `splitBlocks`:
`raw.split(/\n(?=<[^>]+>)|(?=^dis(?:play)?\s+)/im)`. -/
def heurSegs (raw : Str) : List Str := splitScan promptAhead disAhead [] true raw

/-- The marker-path segments `raw.split(MARKER)`. -/
def markerSegs (raw : Str) : List Str := splitOnStr MARKER raw

/-- `splitBlocks(raw)` from analyzer.js: split on the literal marker when
present, otherwise on the heuristic prompt/command split; in both cases
trim every segment and drop the empty ones. -/
def splitBlocks (raw : Str) : List Str :=
  if includesSub MARKER raw then
    ((markerSegs raw).map jsTrim).filter (fun s => !s.isEmpty)
  else
    ((heurSegs raw).map jsTrim).filter (fun s => !s.isEmpty)

/-- Decidable absence of split points for a `splitScan`-style regex split.
`atStart` is true only at the very beginning of the text (where a
zero-width match never splits), `als` tracks line starts. -/
def noSplitScan (look1 look2 : Str → Bool) : Bool → Bool → Str → Bool
  | _, _, [] => true
  | atStart, als, c :: rest =>
    !(c = '\n' && look1 rest) &&
    !(als && !atStart && look2 (c :: rest)) &&
    noSplitScan look1 look2 false (isNl c) rest

/-- The raw text has no heuristic split point of
`/\n(?=<[^>]+>)|(?=^dis(?:play)?\s+)/im`. -/
def noHeurSplit (raw : Str) : Bool := noSplitScan promptAhead disAhead true true raw

/-- Join a list of segments with a separator (inverse of a literal split). -/
def joinSep (sep : Str) : List Str → Str
  | [] => []
  | [a] => a
  | a :: b :: l => a ++ sep ++ joinSep sep (b :: l)

/-! ### Numeric coercion (`toInt`, `toFloat` from analyzer.js) -/

/-- Characters kept by the `toInt` strip `replace(/[^0-9\-]/g, "")`. -/
def keepIntCh (c : Char) : Bool := isDigitCh c || c = '-'

/-- `String(v || "").replace(/[^0-9\-]/g, "")`. -/
def stripInt (s : Str) : Str := s.filter keepIntCh

/-- Characters kept by the `toFloat` strip `replace(/[^0-9.\-]/g, "")`. -/
def keepFloatCh (c : Char) : Bool := isDigitCh c || c = '.' || c = '-'

/-- `String(v || "").replace(/[^0-9.\-]/g, "")`. -/
def stripFloat (s : Str) : Str := s.filter keepFloatCh

/-- Numeric value of an ASCII digit. -/
def digitVal (c : Char) : Nat := c.toNat - '0'.toNat

/-- Value of a digit string read in base 10. -/
def natVal (ds : Str) : Nat := ds.foldl (fun a c => 10 * a + digitVal c) 0

/-- Value of the digits after the decimal point. -/
def fracVal : Str → Rat
  | [] => 0
  | d :: t => ((digitVal d : Rat) + fracVal t) / 10

/-- JS `parseInt(s, 10)`: skip leading whitespace, optional sign, then the
longest digit run; `NaN` (here `none`) when no digit follows.  Values are
exact integers; the IEEE precision loss of JS numbers above 2^53 plays no
role in the verified properties. -/
def jsParseInt (s : Str) : Option Int :=
  let s1 := trimLeft s
  let signed : Bool × Str :=
    match s1 with
    | '-' :: t => (true, t)
    | '+' :: t => (false, t)
    | _ => (false, s1)
  let ds := signed.2.takeWhile isDigitCh
  if ds.isEmpty then none
  else some (if signed.1 then -(natVal ds : Int) else (natVal ds : Int))

/-- JS `parseFloat`: skip leading whitespace, optional sign, then either a
digit run with an optional fraction, or a bare `.fraction`; `NaN` (here
`none`) otherwise.  The exponent and Infinity productions of the JS
grammar are omitted because `toFloat` strips every character other than
digits, `.` and `-` before parsing, making them unreachable.  The exact
decimal value is kept as a rational. -/
def jsParseFloat (s : Str) : Option Rat :=
  let s1 := trimLeft s
  let signed : Bool × Str :=
    match s1 with
    | '-' :: t => (true, t)
    | '+' :: t => (false, t)
    | _ => (false, s1)
  let ip := signed.2.takeWhile isDigitCh
  let r1 := signed.2.dropWhile isDigitCh
  if ip.isEmpty then
    match r1 with
    | '.' :: t =>
      let fp := t.takeWhile isDigitCh
      if fp.isEmpty then none
      else some (if signed.1 then -(fracVal fp) else fracVal fp)
    | _ => none
  else
    let fp : Str :=
      match r1 with
      | '.' :: t => t.takeWhile isDigitCh
      | _ => []
    let v : Rat := (natVal ip : Rat) + fracVal fp
    some (if signed.1 then -v else v)

/-- `toInt` from analyzer.js: strip to `[0-9-]`, parse, `null` on `NaN`. -/
def toInt (v : Str) : Option Int := jsParseInt (stripInt v)

/-- `toFloat` from analyzer.js: strip to `[0-9.-]`, parse, `null` on
`NaN`. -/
def toFloat (v : Str) : Option Rat := jsParseFloat (stripFloat v)

/-! ### Further string helpers from analyzer.js -/

/-- `lines` from analyzer.js: `(block || "").split(/\r?\n/)`.  The regex
consumes a `\r\n` pair or a lone `\n`; a lone `\r` stays in the line. -/
def linesOf : Str → List Str := go []
where
  go : Str → Str → List Str
  | acc, [] => [acc.reverse]
  | acc, '\r' :: '\n' :: rest => acc.reverse :: go [] rest
  | acc, '\n' :: rest => acc.reverse :: go [] rest
  | acc, c :: rest => go (c :: acc) rest

/-- `normalizeKey` from analyzer.js:
`String(s || "").replace(/[^a-z0-9]+/gi, "_").toLowerCase()`.  Each
maximal run of non-alphanumeric characters becomes a single
underscore. -/
def isAlnum (c : Char) : Bool :=
  ('a' ≤ c && c ≤ 'z') || ('A' ≤ c && c ≤ 'Z') || isDigitCh c

def normalizeKeyAux : Nat → Str → Str
  | 0, _ => []
  | _ + 1, [] => []
  | fuel + 1, c :: rest =>
    if isAlnum c then lowerCh c :: normalizeKeyAux fuel rest
    else '_' :: normalizeKeyAux fuel (rest.dropWhile (fun d => !isAlnum d))

def normalizeKey (s : Str) : Str := normalizeKeyAux (s.length + 1) s

/-- `s.replace(/\r/g, "")`. -/
def removeCr (s : Str) : Str := s.filter (fun c => c ≠ '\r')

/-- Greedy-then-backtracking end of the `\s*$` tail of the prompt regex:
the largest `k` not exceeding the whitespace run length such that
position `k` of `after` is the end of the string or a newline (`$` with
the `m` flag).  All carriage returns are removed before this regex runs,
so `\n` is the only line terminator left. -/
def greedyWsEnd (after : Str) : Nat → Option Nat
  | 0 => if after.isEmpty || (after.headD ' ') = '\n' then some 0 else none
  | k + 1 =>
    if (after.drop (k + 1)).isEmpty || ((after.drop (k + 1)).headD ' ') = '\n' then
      some (k + 1)
    else greedyWsEnd after k

/-- Length of a match of `<[^>]+>\s*$` (with multiline `$`) starting at
`s`, or `none`. -/
def promptSpanLen (s : Str) : Option Nat :=
  match s with
  | '<' :: rest =>
    let mid := rest.takeWhile (fun c => c ≠ '>')
    let rest' := rest.dropWhile (fun c => c ≠ '>')
    if mid.isEmpty then none
    else
      match rest' with
      | '>' :: after =>
        match greedyWsEnd after (after.takeWhile isWs).length with
        | some k => some (1 + mid.length + 1 + k)
        | none => none
      | _ => none
  | _ => none

/-- Remove the first match of `/\n<[^>]+>\s*$/m` (used by
`cleanTailPrompt`). -/
def cutTailPrompt : Str → Str
  | [] => []
  | c :: rest =>
    if c = '\n' then
      match promptSpanLen rest with
      | some k => rest.drop k
      | none => c :: cutTailPrompt rest
    else c :: cutTailPrompt rest

/-- `cleanTailPrompt` from analyzer.js:
`s.replace(/\r/g, "").replace(/\n<[^>]+>\s*$/m, "").trim()`. -/
def cleanTailPrompt (s : Str) : Str := jsTrim (cutTailPrompt (removeCr s))

/-! ### The model (`newModel()` from analyzer.js)

Fields that an extractor may leave unset are `Option`; JS `null` and a
missing key are both `none`.  Lists model JS arrays, association lists
model plain JS objects used as maps (insertion order preserved). -/

structure SshUser where
  name : Str
  auth_type : Option Str
  service_type : Option Str
  rsa_key : Option Str
deriving DecidableEq

structure NtpServer where
  ip : Str
  vpn_instance : Option Str
deriving DecidableEq

structure PerServiceCpu where
  name : Str
  pct : Option Int
deriving DecidableEq

structure CpuSample where
  avg : Option Int := none
  max : Option Int := none
  ts : Option Str := none
  per_service : Option (List PerServiceCpu) := none
deriving DecidableEq

structure MemSample where
  used_mb : Option Rat
  total_mb : Option Rat
  free_mb : Option Rat
  phys_total_mb : Option Rat
  cache_mb : Option Rat
  usage_pct : Option Int
deriving DecidableEq

structure DiskSample where
  source : Str
  total_kb : Option Int
  free_kb : Option Int
  used_kb : Option Int
deriving DecidableEq

structure PowerSample where
  slot : Option Str
  input_voltage_v : Option Rat
  input_current_a : Option Rat
  total_power_w : Option Rat
deriving DecidableEq

structure TempSample where
  pcb : Str
  slot : Option Str
  status : Option Str
  temp_c : Option Int
deriving DecidableEq

structure FanSpeed where
  id : Option Int
  speed_percent : Option Int
deriving DecidableEq

structure FanSample where
  status : Option Str
  speeds : List FanSpeed
deriving DecidableEq

structure Card where
  slot : Str
  typ : Str
  online : Str
  register : Str
  status : Str
  role : Str
deriving DecidableEq

structure Pic where
  pic : Str
  status : Str
  typ : Str
  port_count : Str
  init_result : Str
  logic_down : Str
deriving DecidableEq

structure Elabel where
  scope : Str
  slot : Option Int
  manufacturer : Option Str
  part_number : Option Str
  barcode : Option Str
  item : Option Str
  description : Option Str
  model : Option Str
deriving DecidableEq

structure Sfp where
  port : Str
  status : Option Str := none
  typ : Option Str := none
  rx_dbm : Option Rat := none
  tx_dbm : Option Rat := none
  wavelength_nm : Option Int := none
  vendor_pn : Option Str := none
deriving DecidableEq

structure IfaceRec where
  name : Str
  status : Option Str := none
  protocol : Option Str := none
  in_util : Option Str := none
  out_util : Option Str := none
  duplex : Option Str := none
  bandwidth_mbps : Option Int := none
  ip : Option Str := none
  mask : Option Str := none
  ipv6 : Option Str := none
  vpn_instance : Option Str := none
  description : Option Str := none
  rx_dbm : Option Rat := none
  tx_dbm : Option Rat := none
deriving DecidableEq

structure MacEntry where
  vlan : Option Int
  mac : Str
  interface : Str
  typ : Str
deriving DecidableEq

structure ArpStats where
  total : Option Int
  dynamic : Option Int
deriving DecidableEq

structure ArpEntry where
  ip : Option Str := none
  mac : Option Str := none
  interface : Option Str := none
  expire : Option Str := none
  typ : Option Str := none
  vpn : Option Str := none
  stats : Option ArpStats := none
deriving DecidableEq

structure VlanEntry where
  id : Option Int
  name : Option Str
  typ : Option Str
  vxlan_vni : Option Int := none
  members : List Str
deriving DecidableEq

structure TrunkEntry where
  typ : Str
  id : Str
  work_mode : Option Str := none
  mode : Option Str := none
  state : Option Str := none
  members : List Str := []
  master_state : Option Str := none
  actor : Option Str := none
  partner : Option Str := none
deriving DecidableEq

structure ETrunkEntry where
  id : Str
  state : Option Str
  peer_ip : Option Str
  system_id : Option Str
deriving DecidableEq

structure Trunks where
  eth_trunks : List TrunkEntry
  e_trunks : List ETrunkEntry
deriving DecidableEq

structure Lldp where
  enabled : Option Bool
  neighbors : List Str
deriving DecidableEq

structure Vrrp where
  enabled : Option Bool
  groups : List Str
deriving DecidableEq

structure BfdSession where
  localD : Str
  remote : Str
  peer_ip : Str
  state : Str
  typ : Option Str
  interface : Option Str
deriving DecidableEq

structure BfdConfig where
  all_interfaces : Option Bool := none
  mpls_passive : Option Bool := none
deriving DecidableEq

structure BfdReflector where
  discriminator : Option Str := none
deriving DecidableEq

structure Bfd where
  sessions : List BfdSession
  config : BfdConfig
  reflector : BfdReflector
deriving DecidableEq

structure OspfNeighbor where
  area : Str
  interface : Str
  neighbor_id : Str
  state : Str
deriving DecidableEq

structure Ospf where
  neighbors : List OspfNeighbor
  areas : List Str
  router_ids : List (Str × Str)
deriving DecidableEq

structure IsisProcess where
  id : Str
  network_entity : Option Str
  is_level : Option Str
deriving DecidableEq

structure Isis where
  neighbors : List Str
  areas : List Str
  processes : List IsisProcess
deriving DecidableEq

structure BgpPeer where
  neighbor : Str
  asn : Option Int
  state : Str
  uptime : Option Str := none
  routes : Option Int := none
deriving DecidableEq

structure BgpConfigPeer where
  peer_ip : Str
  local_as : Option Str
  peer_as : Str
  description : Option Str
  bfd : Bool
deriving DecidableEq

structure Bgp where
  neighbors : List BgpPeer
  vpnv4 : List BgpPeer
  vpnv6 : List BgpPeer
  evpn_peers : List BgpPeer
  config_peers : List BgpConfigPeer
deriving DecidableEq

structure VrfEntry where
  name : Str
  af : Option (List Str)
  router_id : Option Str
deriving DecidableEq

/-- `{start, end}` in the source; `end` is a Lean keyword, renamed to
`stop`. -/
structure SrRange where
  start : Option Int
  stop : Option Int
deriving DecidableEq

structure LspStats where
  srbe : Option Int
deriving DecidableEq

structure SrInfo where
  srgb : Option SrRange
  srlb : Option SrRange
  lsp_stats : LspStats
deriving DecidableEq

structure Mpls where
  sr : SrInfo
deriving DecidableEq

structure EvpnInstance where
  vpn_instance : Str
  evi : Option Int
  vni : Option Int
deriving DecidableEq

structure Evpn where
  instances : List EvpnInstance
deriving DecidableEq

structure VxlanVni where
  vni : Option Int
  bd : Option Int
  peer_ip : Str
  iface : Str
  state : Str
deriving DecidableEq

structure Vxlan where
  vnis : List VxlanVni
deriving DecidableEq

structure Protocols where
  mac : List MacEntry
  arp : List ArpEntry
  vlans : List VlanEntry
  trunks : Trunks
  lldp : Lldp
  vrrp : Vrrp
  bfd : Bfd
  ospf : Ospf
  isis : Isis
  bgp : Bgp
  vrfs : List VrfEntry
  mpls : Mpls
  evpn : Evpn
  vxlan : Vxlan
deriving DecidableEq

structure RouteSummaryRow where
  proto : Str
  total : Option Int
  active : Option Int
  added : Option Int
  deleted : Option Int
  freed : Option Int
deriving DecidableEq

structure RouteSummary where
  vrf : Option Str
  total_routes : Option Int
  summary_prefixes : List RouteSummaryRow
deriving DecidableEq

/-- `prefix` is a reserved token here; the field is named `pfx`. -/
structure StaticRoute where
  vrf : Option Str
  pfx : Str
  mask : Str
  next_hop : Str
  iface : Option Str
deriving DecidableEq

structure Routing where
  table_summary : List RouteSummary
  static : List StaticRoute
deriving DecidableEq

structure License where
  sale_name : Str
  item_name : Str
  control_value : Str
  used_value : Str
  description : Str
deriving DecidableEq

structure Alarm where
  sequence : Option Int
  level : Option Str := none
  severity : Option Str
  state : Option Str
  date : Option Str := none
  time : Option Str := none
  description : Str
  alarm_id : Option Str := none
  name : Option Str := none
  start_time : Option Str := none
deriving DecidableEq

/-- One diagnostics record `{raw, error?}` in `raw_sections`. -/
structure Entry where
  raw : Str
  error : Option Str
deriving DecidableEq

structure MacAddrs where
  chassis : Option Str
  base : Option Str
deriving DecidableEq

structure Identity where
  hostname : Option Str
  sysname : Option Str
  model : Option Str
  version : Option Str
  serial : Option Str
  lsr_id : Option Str
  router_id_public : Option Str
  router_ids : List (Str × Str)
  timezone : Option Str
  current_time : Option Str
  patch_status : Option Str
  config_saved : Option Str
  ssh_users : List SshUser
  mac_addrs : MacAddrs
deriving DecidableEq

structure Software where
  version : Option Str
  uptime : Option Str
deriving DecidableEq

structure Ntp where
  state : Option Str
  stratum : Option Int
  servers : List NtpServer
deriving DecidableEq

structure Resources where
  cpu : List CpuSample
  memory : List MemSample
  disk : List DiskSample
  power : List PowerSample
  temperature : List TempSample
  fan : List FanSample
deriving DecidableEq

structure Hardware where
  cards : List Card
  pics : List Pic
  elabels : List Elabel
  sfp : List Sfp
deriving DecidableEq

/-- The aggregate model; `raw_sections` is an insertion-ordered map from
normalized command label to diagnostics entries. -/
structure Model where
  identity : Identity
  software : Software
  ntp : Ntp
  resources : Resources
  hardware : Hardware
  interfaces : List IfaceRec
  protocols : Protocols
  routing : Routing
  licenses : List License
  alarms : List Alarm
  raw_sections : List (Str × List Entry)
deriving DecidableEq

/-- `newModel()` from analyzer.js. -/
def newModel : Model where
  identity :=
    { hostname := none, sysname := none, model := none, version := none
      serial := none, lsr_id := none, router_id_public := none
      router_ids := [], timezone := none, current_time := none
      patch_status := none, config_saved := none, ssh_users := []
      mac_addrs := { chassis := none, base := none } }
  software := { version := none, uptime := none }
  ntp := { state := none, stratum := none, servers := [] }
  resources := { cpu := [], memory := [], disk := [], power := [], temperature := [], fan := [] }
  hardware := { cards := [], pics := [], elabels := [], sfp := [] }
  interfaces := []
  protocols :=
    { mac := [], arp := [], vlans := []
      trunks := { eth_trunks := [], e_trunks := [] }
      lldp := { enabled := none, neighbors := [] }
      vrrp := { enabled := none, groups := [] }
      bfd := { sessions := [], config := {}, reflector := {} }
      ospf := { neighbors := [], areas := [], router_ids := [] }
      isis := { neighbors := [], areas := [], processes := [] }
      bgp := { neighbors := [], vpnv4 := [], vpnv6 := [], evpn_peers := [], config_peers := [] }
      vrfs := []
      mpls := { sr := { srgb := none, srlb := none, lsp_stats := { srbe := none } } }
      evpn := { instances := [] }
      vxlan := { vnis := [] } }
  routing := { table_summary := [], static := [] }
  licenses := []
  alarms := []
  raw_sections := []

/-! ### The interface registry (`ensureInterface` from analyzer.js) -/

/-- The hidden per-parse map `ensureInterface._map` from normalized
(lower-cased) interface name to index in `model.interfaces`. -/
abbrev IMap := List (Str × Nat)

/-- Association-list lookup (JS `Map.prototype.get`). -/
def lookupKey : IMap → Str → Option Nat
  | [], _ => none
  | (k, i) :: t, key => if k = key then some i else lookupKey t key

/-- `ensureInterface(model, name)`: lower-case the name; an empty name
yields no record; otherwise get the existing index from the map or
append a fresh record `{name}` and register its index.  Returns the new
interface list, the new map and the index of the record (if any). -/
def ensureInterface (ifaces : List IfaceRec) (imap : IMap) (name : Str) :
    List IfaceRec × IMap × Option Nat :=
  let key := jsLower name
  if key.isEmpty then (ifaces, imap, none)
  else
    match lookupKey imap key with
    | some idx => (ifaces, imap, some idx)
    | none =>
      (ifaces ++ [{ name := name }], (key, ifaces.length) :: imap, some ifaces.length)

/-- In-place update of the record at index `i` (JS mutation through the
reference returned by `ensureInterface`). -/
def listModify {α : Type} (l : List α) (i : Nat) (f : α → α) : List α :=
  match l, i with
  | [], _ => []
  | x :: t, 0 => f x :: t
  | x :: t, n + 1 => x :: listModify t n f

/-! ### Bespoke matchers for the field-extraction regexes

Each matcher mirrors one regex of analyzer.js.  Greedy quantifiers with
their backtracking are modelled explicitly; searches are leftmost-first.
The guiding facts: a greedy `\s*` or `\s+` before a literal or a
non-whitespace capture class has a unique viable stop (the end of the
maximal whitespace run), and backtracking into the run only matters when
the run reaches the end of the text, which the helpers handle
explicitly. -/

/-- First hit of `f` over a list of candidate positions. -/
def firstSome {α β : Type} (f : α → Option β) : List α → Option β
  | [] => none
  | a :: t =>
    match f a with
    | some b => some b
    | none => firstSome f t

/-- Try `f` at every suffix, leftmost first (an unanchored regex
search). -/
def searchAll {β : Type} (f : Str → Option β) : Str → Option β
  | [] => f []
  | c :: rest =>
    match f (c :: rest) with
    | some b => some b
    | none => searchAll f rest

/-- Tails that start just after a line terminator (the positions where a
multiline `^` matches, besides the start of the text). -/
def lineStartTails : Str → List Str
  | [] => []
  | c :: rest => if isNl c then rest :: lineStartTails rest else lineStartTails rest

/-- All positions where a multiline `^` matches, leftmost first. -/
def lineStarts (s : Str) : List Str := s :: lineStartTails s

/-- `\s+` then the rest: `none` when no whitespace follows. -/
def afterWsPlus (s : Str) : Option Str :=
  if (s.takeWhile isWs).isEmpty then none else some (s.dropWhile isWs)

/-- `\s*(C+)` with greedy backtracking, for a capture class `C`: skip the
whitespace run; if something follows, the capture is the maximal `C` run
there; otherwise backtrack into the whitespace run for the latest
position whose character is in `C`. -/
def wsThenCap (capClass : Char → Bool) (s : Str) : Option Str :=
  let run := s.takeWhile isWs
  let rest := s.dropWhile isWs
  if !rest.isEmpty then
    let cap := rest.takeWhile capClass
    if cap.isEmpty then none else some cap
  else if run.isEmpty then none
  else wsThenCapBack capClass run (run.length - 1)
where
  wsThenCapBack (capClass : Char → Bool) (run : Str) : Nat → Option Str
  | 0 =>
    if capClass (run.headD '\n') then some (run.takeWhile capClass) else none
  | p + 1 =>
    if capClass ((run.drop (p + 1)).headD '\n') then
      some ((run.drop (p + 1)).takeWhile capClass)
    else wsThenCapBack capClass run p

/-- `\s+(.+)` (used after a keyword): at least one whitespace character,
then a non-empty capture of non-newline characters, greedy with
backtracking at the end of the text. -/
def capAfterWsPlus (s : Str) : Option Str :=
  if (s.takeWhile isWs).isEmpty then none
  else wsThenCap (fun c => !isNl c) s

/-- `\s*[: ]\s*(C+)`: try the separator `[: ]` at each index from the end
of the leading whitespace run downwards (the greedy order of the first
`\s*`), then `\s*(C+)`. -/
def colonSpaceCap (capClass : Char → Bool) (s : Str) : Option Str :=
  go ((s.takeWhile isWs).length + 1)
where
  go : Nat → Option Str
  | 0 => none
  | j + 1 =>
    let cj := (s.drop j).headD '\x00'
    if cj = ':' || cj = ' ' then
      match wsThenCap capClass (s.drop (j + 1)) with
      | some c => some c
      | none => go j
    else go j

/-- `\s*:\s*(C+)`: like `colonSpaceCap` but the separator must be a
colon, which can only sit right after the whitespace run. -/
def colonOnlyCap (capClass : Char → Bool) (s : Str) : Option Str :=
  match s.dropWhile isWs with
  | ':' :: after => wsThenCap capClass after
  | _ => none

/-- `\s*:\s*(.*)`: empty capture allowed, so greediness needs no
backtracking: skip whitespace (also across line breaks), capture the
non-newline run. -/
def colonCapStar (s : Str) : Option Str :=
  match s.dropWhile isWs with
  | ':' :: after => some ((after.dropWhile isWs).takeWhile (fun c => !isNl c))
  | _ => none

/-! ### Interface extractors -/

/-- The row test of `p_display_interface_brief`:
`/^(GigabitEthernet|X?GE|Eth|100GE|25GE|40GE|10GE|LoopBack|Ethernet|NULL|Vlanif)/i`. -/
def briefPrefixes : List Str :=
  [str "GigabitEthernet", str "XGE", str "GE", str "Eth", str "100GE",
   str "25GE", str "40GE", str "10GE", str "LoopBack", str "Ethernet",
   str "NULL", str "Vlanif"]

def briefLineTest (t : Str) : Bool := briefPrefixes.any (fun p => ciStarts p t)

/-- `t.split(/\s{2,}/)`: split on each maximal whitespace run of length
at least two (the greedy `\s{2,}` consumes the whole run). -/
def splitWs2Aux : Nat → Str → Str → List Str
  | 0, acc, s => [acc.reverse ++ s]
  | _ + 1, acc, [] => [acc.reverse]
  | fuel + 1, acc, c :: rest =>
    if isWs c && isWs (rest.headD 'x') then
      acc.reverse :: splitWs2Aux fuel [] (rest.dropWhile isWs)
    else splitWs2Aux fuel (c :: acc) rest

def splitWs2 (s : Str) : List Str := splitWs2Aux (s.length + 1) [] s

/-- `p_display_interface_brief` from analyzer.js: for every row that
looks like an interface table row, split into columns, and when at least
three columns are present enrich (or create) the interface record with
status, protocol and the optional utilisation columns. -/
def briefUpdate (p : List Str) (r : IfaceRec) : IfaceRec :=
  let r := { r with status := p[1]?, protocol := p[2]? }
  let r := match p[3]? with
    | some v => { r with in_util := some v }
    | none => r
  match p[4]? with
  | some v => { r with out_util := some v }
  | none => r

/-- One line of the brief-table loop. -/
def briefRow (acc : Model × IMap) (ln : Str) : Model × IMap :=
  let t := jsTrim ln
  if briefLineTest t then
    let p := ((splitWs2 t).map jsTrim).filter (fun s => !s.isEmpty)
    if 3 ≤ p.length then
      let er := ensureInterface acc.1.interfaces acc.2 (p.headD [])
      match er.2.2 with
      | none => ({ acc.1 with interfaces := er.1 }, er.2.1)
      | some idx =>
        ({ acc.1 with interfaces := listModify er.1 idx (briefUpdate p) }, er.2.1)
    else acc
  else acc

def p_display_interface_brief (b : Str) (m : Model) (im : IMap) : Model × IMap :=
  (linesOf b).foldl briefRow (m, im)

/-- Lookahead `interface\s+` (case-insensitive). -/
def cfgIfaceLook (s : Str) : Bool :=
  ciStarts (str "interface") s && isWs ((s.drop 9).headD 'x')

/-- `txt.split(/\n(?=interface\s+)/i)` followed by the
`/^interface\s+/i.test(s.trim())` filter. -/
def cfgIfaceBlocks (txt : Str) : List Str :=
  (splitScan cfgIfaceLook (fun _ => false) [] true txt).filter
    (fun s => cfgIfaceLook (jsTrim s))

/-- `lines(blk)[0].replace(/^interface\s+/i, "").trim()`. -/
def cfgIfaceName (blk : Str) : Str :=
  let firstLine := (linesOf blk).headD []
  if cfgIfaceLook firstLine then jsTrim ((firstLine.drop 9).dropWhile isWs)
  else jsTrim firstLine

/-- `/^\s*KW\s+(.+)$/im`: search the line starts; at each, `\s*` may
cross line breaks before the keyword. -/
def matchKwCapAt (kw : Str) (s : Str) : Option Str :=
  let s1 := s.dropWhile isWs
  if ciStarts kw s1 then capAfterWsPlus (s1.drop kw.length) else none

def matchKwLine (kw : Str) (blk : Str) : Option Str :=
  firstSome (matchKwCapAt kw) (lineStarts blk)

def isIpCh (c : Char) : Bool := isDigitCh c || c = '.'

/-- `/^\s*ip\s+address\s+([0-9.]+)\s+([0-9.]+|\d+)/im`.  The second
alternative `\d+` is subsumed by `[0-9.]+`, which the engine tries
first. -/
def matchIpAddressAt (s : Str) : Option (Str × Str) :=
  let s1 := s.dropWhile isWs
  if ciStarts (str "ip") s1 then
    match afterWsPlus (s1.drop 2) with
    | none => none
    | some s3 =>
      if ciStarts (str "address") s3 then
        match afterWsPlus (s3.drop 7) with
        | none => none
        | some s5 =>
          let c1 := s5.takeWhile isIpCh
          if c1.isEmpty then none
          else
            match afterWsPlus (s5.drop c1.length) with
            | none => none
            | some s7 =>
              let c2 := s7.takeWhile isIpCh
              if c2.isEmpty then none else some (c1, c2)
      else none
  else none

def matchIpAddress (blk : Str) : Option (Str × Str) :=
  firstSome matchIpAddressAt (lineStarts blk)

def isIpv6Ch (c : Char) : Bool :=
  isDigitCh c || ('a' ≤ lowerCh c && lowerCh c ≤ 'f') || c = ':' || c = '/'

/-- `/^\s*ipv6\s+address\s+([0-9a-fA-F:\/]+)/im`. -/
def matchIpv6At (s : Str) : Option Str :=
  let s1 := s.dropWhile isWs
  if ciStarts (str "ipv6") s1 then
    match afterWsPlus (s1.drop 4) with
    | none => none
    | some s3 =>
      if ciStarts (str "address") s3 then
        match afterWsPlus (s3.drop 7) with
        | none => none
        | some s5 =>
          let cap := s5.takeWhile isIpv6Ch
          if cap.isEmpty then none else some cap
      else none
  else none

def matchIpv6 (blk : Str) : Option Str := firstSome matchIpv6At (lineStarts blk)

/-- `/^\s*(?:ip\s+binding|vpn-instance)\s+([^\s\r\n]+)/im`.  The class
`[^\s\r\n]` equals `[^\s]` because `\s` contains both newline
characters. -/
def matchVrfAt (s : Str) : Option Str :=
  let s1 := s.dropWhile isWs
  let afterKw : Option Str :=
    match
      (if ciStarts (str "ip") s1 then
        match afterWsPlus (s1.drop 2) with
        | some s3 => if ciStarts (str "binding") s3 then some (s3.drop 7) else none
        | none => none
      else none) with
    | some r => some r
    | none => if ciStarts (str "vpn-instance") s1 then some (s1.drop 12) else none
  match afterKw with
  | none => none
  | some s4 =>
    match afterWsPlus s4 with
    | none => none
    | some s5 =>
      let cap := s5.takeWhile (fun c => !isWs c)
      if cap.isEmpty then none else some cap

def matchVrf (blk : Str) : Option Str := firstSome matchVrfAt (lineStarts blk)

/-- `/^\s*(speed|bandwidth)\s+(\d+)(G|M|K)?/im`; returns the digits and
the optional unit character. -/
def matchBwAt (s : Str) : Option (Str × Option Char) :=
  let s1 := s.dropWhile isWs
  let afterKw : Option Str :=
    if ciStarts (str "speed") s1 then some (s1.drop 5)
    else if ciStarts (str "bandwidth") s1 then some (s1.drop 9)
    else none
  match afterKw with
  | none => none
  | some s2 =>
    match afterWsPlus s2 with
    | none => none
    | some s3 =>
      let ds := s3.takeWhile isDigitCh
      if ds.isEmpty then none
      else
        let u := (s3.drop ds.length).headD ' '
        if lowerCh u = 'g' || lowerCh u = 'm' || lowerCh u = 'k' then some (ds, some u)
        else some (ds, none)

def matchBw (blk : Str) : Option (Str × Option Char) :=
  firstSome matchBwAt (lineStarts blk)

/-- `toInt(bwMatch[2])` scaled by the unit (default `M`); `Math.round`
on the non-negative value for `K`. -/
def bwValue (ds : Str) (u : Option Char) : Option Int :=
  match toInt ds with
  | none => none
  | some val =>
    let unit := (u.map lowerCh).getD 'm'
    if unit = 'g' then some (val * 1000)
    else if unit = 'k' then some ((val + 500) / 1000)
    else some val

/-- One interface stanza of the configuration extractor (the body of the
`for (const blk of ifaceBlocks)` loop in
`p_display_current_configuration`). -/
def cfgIfaceUpdate (blk : Str) (r : IfaceRec) : IfaceRec :=
  let r := match matchKwLine (str "description") blk with
    | some v => { r with description := some (jsTrim v) }
    | none => r
  let r := match matchIpAddress blk with
    | some (a, b) => { r with ip := some a, mask := some b }
    | none => r
  let r := match matchIpv6 blk with
    | some v => { r with ipv6 := some v }
    | none => r
  let r := match matchVrf blk with
    | some v => { r with vpn_instance := some v }
    | none => r
  match matchBw blk with
  | some (ds, u) => { r with bandwidth_mbps := bwValue ds u }
  | none => r

def cfgIfaceApply (acc : Model × IMap) (blk : Str) : Model × IMap :=
  let name := cfgIfaceName blk
  if name.isEmpty then acc
  else
    let er := ensureInterface acc.1.interfaces acc.2 name
    match er.2.2 with
    | none => ({ acc.1 with interfaces := er.1 }, er.2.1)
    | some idx =>
      ({ acc.1 with interfaces := listModify er.1 idx (cfgIfaceUpdate blk) }, er.2.1)

/-- The interface-stanza portion of `p_display_current_configuration`
(the only part of that extractor that touches `model.interfaces`; the
other stanzas fill identity, ntp, vrfs, routes, isis, bgp and
alarms). -/
def p_display_current_configuration_interfaces (b : Str) (m : Model) (im : IMap) :
    Model × IMap :=
  (cfgIfaceBlocks (cleanTailPrompt b)).foldl cfgIfaceApply (m, im)

/-! ### Command classifier (`detectCommand`) and prompt stripping -/

def noNlMid (mid : Str) : Bool := mid.all (fun c => !isNl c)

/-- `/^<.*>$/` on a single (trimmed) line. -/
def isPromptLine (t : Str) : Bool :=
  t.headD ' ' = '<' && t.getLast? == some '>' && 2 ≤ t.length &&
    noNlMid ((t.drop 1).dropLast)

/-- `/^\[~?.*]$/` on a single (trimmed) line. -/
def isBracketPromptLine (t : Str) : Bool :=
  match t with
  | '[' :: rest =>
    rest.getLast? == some ']' && noNlMid rest.dropLast
  | _ => false

/-- `/^(Info|Warning|Error):/i`. -/
def isSysMsgLine (t : Str) : Bool :=
  ciStarts (str "info:") t || ciStarts (str "warning:") t || ciStarts (str "error:") t

def isCmdTokenCh (c : Char) : Bool :=
  ('a' ≤ lowerCh c && lowerCh c ≤ 'z') || isDigitCh c || c = '-'

def isSepCh (c : Char) : Bool := isWs c || c = '.'

/-- Greedy span of `(?:[\s\.][a-z0-9\-]+)*`: each iteration consumes one
separator character and a non-empty token run. -/
def cmdStarSpan : Nat → Str → Str
  | 0, _ => []
  | fuel + 1, s =>
    match s with
    | c :: rest =>
      if isSepCh c then
        let tokRun := rest.takeWhile isCmdTokenCh
        if tokRun.isEmpty then []
        else (c :: tokRun) ++ cmdStarSpan fuel (rest.drop tokRun.length)
      else []
    | [] => []

/-- The capture of
`/^(dis(?:play)?\s+[a-z0-9\-]+(?:[\s\.][a-z0-9\-]+)*)/i` — the matched
command text, original casing preserved.  The engine tries the longer
`display` alternative first. -/
def cmdMatchLabel (t : Str) : Option Str :=
  let tryKw : Str → Option Str := fun kw =>
    if ciStarts kw t then
      let s1 := t.drop kw.length
      let wsRun := s1.takeWhile isWs
      if wsRun.isEmpty then none
      else
        let s2 := s1.dropWhile isWs
        let tok := s2.takeWhile isCmdTokenCh
        if tok.isEmpty then none
        else
          let rest := s2.drop tok.length
          some (t.take (kw.length + wsRun.length + tok.length) ++
            cmdStarSpan rest.length rest)
    else none
  match tryKw (str "display") with
  | some l => some l
  | none => tryKw (str "dis")

/-- Two-word prefix with `\s+` between (for `ip\s+route` and
`dir\s+cfcard`). -/
def twoWordAhead (w1 w2 : Str) (t : Str) : Bool :=
  ciStarts w1 t &&
    (match afterWsPlus (t.drop w1.length) with
     | some r => ciStarts w2 r
     | none => false)

/-- The keyword alternation of `detectCommand` (line 139); the branch
returns the line itself, like the fall-through, so it only mirrors the
source structure. -/
def kwAhead (t : Str) : Bool :=
  [str "interface", str "controller", str "return", str "system", str "diagnose",
   str "bgp", str "ospf", str "isis", str "mpls", str "segment-routing",
   str "ipsec", str "vxlan", str "evpn", str "vlan", str "eth-trunk", str "lacp",
   str "bfd", str "vrrp", str "lldp", str "vrf", str "vpn-instance", str "clock",
   str "ntp", str "patch"].any (fun p => ciStarts p t) ||
  twoWordAhead (str "ip") (str "route") t ||
  twoWordAhead (str "dir") (str "cfcard") t

/-- Case-insensitive substring test. -/
def containsCI (pat : Str) : Str → Bool
  | [] => pat.isEmpty
  | s@(_ :: rest) => ciStarts pat s || containsCI pat rest

/-- `detectCommand` from analyzer.js: the first line that is not blank,
not a prompt and not a system message yields the command label — the
regex capture when it looks like a (possibly abbreviated) display
command, the line itself otherwise.  All lines skipped yields
`"unknown"`. -/
def detectCommandFrom : List Str → Str
  | [] => str "unknown"
  | l :: rest =>
    let t := jsTrim l
    if t.isEmpty then detectCommandFrom rest
    else if isPromptLine t || isBracketPromptLine t then detectCommandFrom rest
    else if isSysMsgLine t then detectCommandFrom rest
    else
      match cmdMatchLabel t with
      | some lbl => lbl
      | none =>
        if kwAhead t then t
        else if containsCI (str "display") t then t
        else t

def detectCommand (block : Str) : Str := detectCommandFrom (linesOf block)

/-- Remainder after a `<[^>]+>` prompt at the start of the line. -/
def promptRemainder (l : Str) : Option Str :=
  match l with
  | '<' :: rest =>
    let mid := rest.takeWhile (fun c => c ≠ '>')
    if mid.isEmpty then none
    else
      match rest.dropWhile (fun c => c ≠ '>') with
      | '>' :: after => some after
      | _ => none
  | _ => none

/-- Remainder after a `\[~?[^\]]+\]` prompt at the start of the line
(the two alternatives for the optional `~` end at the same first `]`). -/
def bracketRemainder (l : Str) : Option Str :=
  match l with
  | '[' :: rest =>
    let mid := rest.takeWhile (fun c => c ≠ ']')
    if mid.isEmpty then none
    else
      match rest.dropWhile (fun c => c ≠ ']') with
      | ']' :: after => some after
      | _ => none
  | _ => none

/-- The capture of `<([^>]+)>` at the start of a position. -/
def promptCapture (s : Str) : Option Str :=
  match s with
  | '<' :: rest =>
    let mid := rest.takeWhile (fun c => c ≠ '>')
    if mid.isEmpty then none
    else if ((rest.dropWhile (fun c => c ≠ '>')).headD ' ') = '>' then some mid
    else none
  | _ => none

/-- Join lines back with `\n` (JS `array.join("\n")`). -/
def joinNl : List Str → Str
  | [] => []
  | [a] => a
  | a :: b :: t => a ++ '\n' :: joinNl (b :: t)

/-- `COMMAND_REGEX.test(line)`:
`/^(?:<[^>]+>|\[~?[^\]]+\])?\s*(dis(?:play)?\s+...)/im`.  When a prompt
alternative matches but the command part fails, the empty-prompt path
cannot succeed either (the line starts with `<` or `[`), so the three
paths can be tried independently. -/
def commandRegexTest (l : Str) : Bool :=
  let test := fun (s : Str) => (cmdMatchLabel (s.dropWhile isWs)).isSome
  (match promptRemainder l with
   | some r => test r
   | none => false) ||
  (match bracketRemainder l with
   | some r => test r
   | none => false) ||
  test l

/-- `stripCommandFromBlock` from analyzer.js. -/
def stripCommandFromBlock (block : Str) : Str :=
  let ls := linesOf block
  if ls.length ≤ 1 then block
  else if commandRegexTest (ls.headD []) then jsTrim (joinNl (ls.drop 1))
  else block

/-! ### The dispatch loop of `parseFile` and the orchestrators -/

/-- An extractor takes the prompt-stripped chunk, the model and the
interface map, and returns the (possibly partially) mutated model and
map plus the message of the exception it raised, if any — mirroring that
a JS extractor may mutate the model before throwing. -/
abbrev Extractor := Str → Model → IMap → Model × IMap × Option Str

/-- Append an entry under a key of `raw_sections`
(`(model.raw_sections[key] ||= []).push(entry)`); a new key goes to the
end, like JS object insertion order. -/
def rsAppend (rs : List (Str × List Entry)) (key : Str) (e : Entry) :
    List (Str × List Entry) :=
  match rs with
  | [] => [(key, [e])]
  | (k, es) :: t =>
    if k = key then (k, es ++ [e]) :: t else (k, es) :: rsAppend t key e

/-- Assign a key of `raw_sections` (`model.raw_sections[key] = [...]`). -/
def rsSet (rs : List (Str × List Entry)) (key : Str) (es : List Entry) :
    List (Str × List Entry) :=
  match rs with
  | [] => [(key, es)]
  | (k, old) :: t =>
    if k = key then (k, es) :: t else (k, old) :: rsSet t key es

/-- First-match-wins scan of the route table (`for (const [rx, fn] of
ROUTES) if (rx.test(cmd)) { ...; break }`). -/
def firstRoute : List ((Str → Bool) × Extractor) → Str → Option Extractor
  | [], _ => none
  | (p, f) :: t, cmd => if p cmd then some f else firstRoute t cmd

/-- `/^dis(?:play)?\s+cur(?:rent-configuration)?/i` — since
`current-configuration` extends `cur`, testing for the `cur` prefix
suffices. -/
def disCurAnchored (s : Str) : Bool :=
  let after := fun (kwlen : Nat) =>
    match afterWsPlus (s.drop kwlen) with
    | some r => ciStarts (str "cur") r
    | none => false
  (ciStarts (str "display") s && after 7) || (ciStarts (str "dis") s && after 3)

/-- The unanchored `/dis(?:play)?\s+cur(?:rent-configuration)?/i.test(raw)`. -/
def disCurTest : Str → Bool
  | [] => false
  | s@(_ :: rest) => disCurAnchored s || disCurTest rest

/-- `RAW_CONFIG_REGEX.test(raw)`:
`/^(#|!Software Version|sysname|clock timezone)/im`. -/
def rawConfigTest (raw : Str) : Bool :=
  (lineStarts raw).any (fun t =>
    ciStarts (str "#") t || ciStarts (str "!Software Version") t ||
    ciStarts (str "sysname") t || ciStarts (str "clock timezone") t)

/-- The hostname capture `/^<([^>]+)>/m`. -/
def hostnameMatch (raw : Str) : Option Str := firstSome promptCapture (lineStarts raw)

/-- One iteration of the PASS 2 dispatch loop of `parseFile`
(lines 1189-1217 of analyzer.js). -/
def processBlock (routes : List ((Str → Bool) × Extractor)) (hasCfg : Bool)
    (acc : Model × IMap) (block : Str) : Model × IMap :=
  let cmd := detectCommand block
  if hasCfg && disCurAnchored cmd then acc
  else
    let cleanBlock := stripCommandFromBlock block
    match firstRoute routes cmd with
    | some f =>
      match f cleanBlock acc.1 acc.2 with
      | (m', im', some e) =>
        let entry : Entry := ⟨cleanTailPrompt cleanBlock, some e⟩
        ({ m' with raw_sections := rsAppend m'.raw_sections (normalizeKey cmd) entry }, im')
      | (m', im', none) => (m', im')
    | none =>
      if cmd = str "unknown" then acc
      else
        let entry : Entry := ⟨cleanTailPrompt cleanBlock, none⟩
        ({ acc.1 with raw_sections := rsAppend acc.1.raw_sections (normalizeKey cmd) entry }, acc.2)

/-- The PASS 2 loop over all chunks. -/
def processBlocks (routes : List ((Str → Bool) × Extractor)) (hasCfg : Bool)
    (blocks : List Str) (acc : Model × IMap) : Model × IMap :=
  blocks.foldl (processBlock routes hasCfg) acc

/-- Stable first-occurrence-wins dedup by key (`uniqBy` from
analyzer.js). -/
def uniqByKey {α : Type} (key : α → Str) (l : List α) : List α := go [] l
where
  go (seen : List Str) : List α → List α
  | [] => []
  | a :: t => if key a ∈ seen then go seen t else a :: go (key a :: seen) t

/-- The final merge/dedup sweep of `parseFile` (lines 1220-1226). -/
def cleanupModel (m : Model) : Model :=
  { m with
    identity := { m.identity with
      ssh_users := uniqByKey (fun u => u.name) m.identity.ssh_users }
    ntp := { m.ntp with servers := uniqByKey (fun s => s.ip) m.ntp.servers }
    interfaces := uniqByKey (fun r => r.name) m.interfaces
    protocols := { m.protocols with
      vrfs := uniqByKey (fun v => v.name) m.protocols.vrfs
      bgp := { m.protocols.bgp with
        config_peers := uniqByKey (fun p => p.peer_ip) m.protocols.bgp.config_peers }
      isis := { m.protocols.isis with
        processes := uniqByKey (fun p => p.id) m.protocols.isis.processes } }
    alarms := uniqByKey (fun a => a.description) m.alarms }

/-- The fresh model with the hostname from the session banner (lines
1150-1155). -/
def hostModel (raw : Str) : Model :=
  match hostnameMatch raw with
  | some h => { newModel with identity := { newModel.identity with hostname := some h } }
  | none => newModel

/-- `hasConfigData` (line 1162). -/
def hasCfgData (raw : Str) : Bool := rawConfigTest raw || disCurTest raw

/-- The configuration block chosen by PASS 1 (lines 1168-1178). -/
def pass1Block (raw : Str) : Str :=
  if rawConfigTest raw then raw
  else
    match (splitBlocks raw).find? (fun b => disCurAnchored (detectCommand b)) with
    | some b => stripCommandFromBlock b
    | none => raw

/-- PASS 1 (lines 1159-1184): run the configuration extractor when the
capture holds configuration data; a raised error is recorded under
`config_parser_error` (the JS stores `e.stack` as the raw text; the
stack is modelled by the message). -/
def pass1 (cfgExt : Extractor) (raw : Str) : Model × IMap :=
  if hasCfgData raw then
    match cfgExt (pass1Block raw) (hostModel raw) [] with
    | (m', im', some e) =>
      let entries : List Entry := [⟨e, some e⟩]
      ({ m' with raw_sections := rsSet m'.raw_sections (str "config_parser_error") entries }, im')
    | (m', im', none) => (m', im')
  else (hostModel raw, [])

/-- `parseFile` from analyzer.js, over the already-read file content,
parametrised by the configuration extractor (PASS 1) and the route
table (PASS 2).  `gmap` is the incoming state of the hidden global
`ensureInterface._map`; the function overwrites it with a fresh map
before parsing, exactly like line 1151 of the source (PASS 1 thus
starts from the empty map). -/
def parseFileM (cfgExt : Extractor) (routes : List ((Str → Bool) × Extractor))
    (gmap : IMap) (raw : Str) : Model :=
  let _ := gmap
  cleanupModel (processBlocks routes (hasCfgData raw) (splitBlocks raw) (pass1 cfgExt raw)).1

/-- A filesystem entry as seen by `analyzeFile`: missing, unreadable, or
readable content. -/
inductive FileStatus where
  | absent
  | unreadable
  | content (raw : Str)

structure AnalysisResult where
  outputPath : Str
  deviceName : Option Str
deriving DecidableEq

/-- `path.basename(p)` (POSIX). -/
def baseName (p : Str) : Str := (p.reverse.takeWhile (fun c => c ≠ '/')).reverse

/-- Drop `path.extname` from a basename: remove from the last dot, unless
the dot is the leading character. -/
def dropExt (b : Str) : Str :=
  let revB := b.reverse
  let extRev := revB.takeWhile (fun c => c ≠ '.')
  if extRev.length = b.length then b
  else if extRev.length + 1 = b.length then b
  else (revB.drop (extRev.length + 1)).reverse

/-- `outPathFor` from analyzer.js, relative to the output directory
(whose absolute location is environment-dependent and not modelled). -/
def outPathFor (inFile : Str) : Str :=
  str "parsed_" ++ dropExt (baseName inFile) ++ str ".json"

/-- JS truthiness on an optional string (`s || fallback` chains). -/
def truthyStr : Option Str → Option Str
  | some s => if s.isEmpty then none else some s
  | none => none

/-- `analyzeFile` from analyzer.js: raise on a missing or unreadable
file, otherwise parse and report the output path and the device name
(`model.identity.sysname || model.identity.hostname || null`).  The
JSON write is a side effect not affecting the result value. -/
def analyzeFileM (cfgExt : Extractor) (routes : List ((Str → Bool) × Extractor))
    (fsys : Str → FileStatus) (filePath : Str) : Except Str AnalysisResult :=
  match fsys filePath with
  | .absent => .error (str "File not found: " ++ filePath)
  | .unreadable => .error (str "EACCES: permission denied, open " ++ filePath)
  | .content raw =>
    let model := parseFileM cfgExt routes [] raw
    .ok
      { outputPath := outPathFor filePath
        deviceName :=
          match truthyStr model.identity.sysname with
          | some s => some s
          | none => truthyStr model.identity.hostname }

/-- The batch loop of `analyzeDirectory` (lines 1318-1326): strictly
sequential; a failing file is caught, reported and skipped; successes
are accumulated in order. -/
def analyzeDirectoryM (cfgExt : Extractor) (routes : List ((Str → Bool) × Extractor))
    (fsys : Str → FileStatus) (files : List Str) : List AnalysisResult :=
  files.foldl
    (fun acc f =>
      match analyzeFileM cfgExt routes fsys f with
      | .ok r => acc ++ [r]
      | .error _ => acc)
    []

/-! ### License and elabel extractors (absent vs. empty fields) -/

/-- Lookahead `Sale\s+name` (case-insensitive). -/
def saleNameLook (s : Str) : Bool :=
  ciStarts (str "sale") s &&
    (match afterWsPlus (s.drop 4) with
     | some s2 => ciStarts (str "name") s2
     | none => false)

/-- `/Sale\s+name/i.test(p)`. -/
def containsSaleName (p : Str) : Bool :=
  (searchAll (fun s => if saleNameLook s then some () else none) p).isSome

/-- `txt.split(/\n(?=Sale\s+name)|(?=^Sale\s+name)/im).filter(...)`. -/
def licenseParts (txt : Str) : List Str :=
  (splitScan saleNameLook saleNameLook [] true txt).filter containsSaleName

/-- `W1\s+W2\s*:\s*(.*)` (the four labelled license fields). -/
def twoWordColonCapAt (w1 w2 : Str) (s : Str) : Option Str :=
  if ciStarts w1 s then
    match afterWsPlus (s.drop w1.length) with
    | some s2 => if ciStarts w2 s2 then colonCapStar (s2.drop w2.length) else none
    | none => none
  else none

/-- Capture of `/Description\s*:\s*([\s\S]*?)(?:\n\n|$)/i`: lazily up to
the first blank line or the end. -/
def lazyToBlank : Str → Str
  | [] => []
  | '\n' :: '\n' :: _ => []
  | c :: rest => c :: lazyToBlank rest

def descColonCapAt (s : Str) : Option Str :=
  if ciStarts (str "description") s then
    match (s.drop 11).dropWhile isWs with
    | ':' :: after => some (lazyToBlank (after.dropWhile isWs))
    | _ => none
  else none

/-- `s.replace(/\s+/g, " ")`. -/
def collapseWsAux : Nat → Str → Str
  | 0, _ => []
  | _ + 1, [] => []
  | fuel + 1, c :: rest =>
    if isWs c then ' ' :: collapseWsAux fuel (rest.dropWhile isWs)
    else c :: collapseWsAux fuel rest

def collapseWs (s : Str) : Str := collapseWsAux (s.length + 1) s

/-- One license record from one `Sale name` part; a field whose label is
not found becomes the empty string (the `x ? x[1].trim() : ""`
pattern of the source). -/
def licEntry (p : Str) : License :=
  { sale_name :=
      match searchAll (twoWordColonCapAt (str "sale") (str "name")) p with
      | some v => jsTrim v
      | none => []
    item_name :=
      match searchAll (twoWordColonCapAt (str "item") (str "name")) p with
      | some v => jsTrim v
      | none => []
    control_value :=
      match searchAll (twoWordColonCapAt (str "control") (str "value")) p with
      | some v => jsTrim v
      | none => []
    used_value :=
      match searchAll (twoWordColonCapAt (str "used") (str "value")) p with
      | some v => jsTrim v
      | none => []
    description :=
      match searchAll descColonCapAt p with
      | some v => jsTrim (collapseWs v)
      | none => [] }

/-- `p_display_license_verbose` from analyzer.js. -/
def p_display_license_verbose (b : Str) (m : Model) (im : IMap) : Model × IMap :=
  ({ m with licenses := m.licenses ++ (licenseParts (cleanTailPrompt b)).map licEntry }, im)

/-- `Elabel\s+of\s+([^\n\r]+)`. -/
def p_elabel_of (s : Str) : Option Str :=
  if ciStarts (str "elabel") s then
    match afterWsPlus (s.drop 6) with
    | some s2 => if ciStarts (str "of") s2 then capAfterWsPlus (s2.drop 2) else none
    | none => none
  else none

def notNlClass (c : Char) : Bool := !isNl c

/-- `LABEL\s*[: ]\s*(C+)` elabel field matcher. -/
def labelColonCapAt (label : Str) (capClass : Char → Bool) (s : Str) : Option Str :=
  if ciStarts label s then colonSpaceCap capClass (s.drop label.length) else none

/-- `Part\s*Number\s*[: ]\s*([^\n\r]+)`. -/
def partNumberAt (s : Str) : Option Str :=
  if ciStarts (str "part") s then
    let s2 := (s.drop 4).dropWhile isWs
    if ciStarts (str "number") s2 then colonSpaceCap notNlClass (s2.drop 6) else none
  else none

def isMacCh (c : Char) : Bool :=
  isDigitCh c || ('a' ≤ lowerCh c && lowerCh c ≤ 'f') || c = '.' || c = '-' || c = ':'

/-- `KW\s+MAC\s*[: ]\s*([0-9a-f.\-:]+)/i`. -/
def macLabelAt (kw : Str) (s : Str) : Option Str :=
  if ciStarts kw s then
    match afterWsPlus (s.drop kw.length) with
    | some s2 => if ciStarts (str "mac") s2 then colonSpaceCap isMacCh (s2.drop 3) else none
    | none => none
  else none

/-- `Device\s*:\s*(...)` / `Board\s*:\s*(...)` (colon required). -/
def wordColonOnlyAt (w : Str) (s : Str) : Option Str :=
  if ciStarts w s then colonOnlyCap notNlClass (s.drop w.length) else none

/-- `p_display_elabel` from analyzer.js: always pushes exactly one elabel
record; a labelled field whose pattern does not match anywhere in the
chunk is `null` (`none`), and the chassis/base MAC updates the identity
when present. -/
def p_display_elabel (b : Str) (m : Model) (im : IMap) : Model × IMap :=
  let scope :=
    match searchAll p_elabel_of b with
    | some v => some v
    | none =>
      match searchAll (wordColonOnlyAt (str "device")) b with
      | some v => some v
      | none => searchAll (wordColonOnlyAt (str "board")) b
  let slot := searchAll (labelColonCapAt (str "slot") isDigitCh) b
  let mfr :=
    match searchAll (labelColonCapAt (str "manufacturer") notNlClass) b with
    | some v => some v
    | none => searchAll (labelColonCapAt (str "vendorname") notNlClass) b
  let pn :=
    match searchAll partNumberAt b with
    | some v => some v
    | none => searchAll (labelColonCapAt (str "item") notNlClass) b
  let bc := searchAll (labelColonCapAt (str "barcode") notNlClass) b
  let desc := searchAll (labelColonCapAt (str "description") notNlClass) b
  let mdl := searchAll (labelColonCapAt (str "model") notNlClass) b
  let entry : Elabel :=
    { scope := match scope with | some v => jsTrim v | none => str "unknown"
      slot := match slot with | some v => toInt v | none => none
      manufacturer := mfr.map jsTrim
      part_number := pn.map jsTrim
      barcode := bc.map jsTrim
      item := pn.map jsTrim
      description := desc.map jsTrim
      model := mdl.map jsTrim }
  let m := { m with hardware := { m.hardware with elabels := m.hardware.elabels ++ [entry] } }
  let m :=
    match searchAll (macLabelAt (str "chassis")) b with
    | some v => { m with identity := { m.identity with
        mac_addrs := { m.identity.mac_addrs with chassis := some (jsLower v) } } }
    | none => m
  let m :=
    match searchAll (macLabelAt (str "base")) b with
    | some v => { m with identity := { m.identity with
        mac_addrs := { m.identity.mac_addrs with base := some (jsLower v) } } }
    | none => m
  (m, im)

/-! ### The interface registry invariant -/

/-- Well-formedness of the interface list together with the hidden name
map: the map sends each lower-cased name to the index of its record, and
every record is registered under its lower-cased (non-empty) name. -/
structure IfaceWF (ifaces : List IfaceRec) (imap : IMap) : Prop where
  dom : ∀ k i, lookupKey imap k = some i →
    ∃ r, ifaces[i]? = some r ∧ jsLower r.name = k ∧ k ≠ []
  complete : ∀ i r, ifaces[i]? = some r → lookupKey imap (jsLower r.name) = some i

/-- The WF invariant on a model/map pair. -/
def StWF (acc : Model × IMap) : Prop := IfaceWF acc.1.interfaces acc.2

/-- Frame relation: records survive at their index with the brief-table
fields untouched. -/
def FramePres (l l' : List IfaceRec) : Prop :=
  ∀ (i : Nat) (r : IfaceRec), l[i]? = some r →
    ∃ r', l'[i]? = some r' ∧ r'.name = r.name ∧ r'.status = r.status ∧
      r'.protocol = r.protocol

/-- Routes whose extractors preserve the registry invariant. -/
def PreservesWF (f : Extractor) : Prop :=
  ∀ b m im, IfaceWF m.interfaces im →
    IfaceWF (f b m im).1.interfaces (f b m im).2.1

/-! ## Lemmas and theorems -/

/-! Basic lemmas about trimming and the splitters. -/

theorem trimLeft_head_not_ws (s : Str) :
    ∀ c, (trimLeft s).head? = some c → isWs c = false := by
  induction s with
  | nil => intro c h; simp [trimLeft] at h
  | cons a t ih =>
    intro c h
    by_cases ha : isWs a
    · exact ih c (by simpa [trimLeft, List.dropWhile_cons, ha] using h)
    · have hac : a = c := by simpa [trimLeft, List.dropWhile_cons, ha] using h
      subst hac
      simpa using ha

theorem trimLeft_of_head_not_ws (s : Str)
    (h : ∀ c, s.head? = some c → isWs c = false) : trimLeft s = s := by
  cases s with
  | nil => rfl
  | cons a t =>
    have := h a rfl
    simp [trimLeft, List.dropWhile_cons, this]

theorem trimLeft_idem (s : Str) : trimLeft (trimLeft s) = trimLeft s :=
  trimLeft_of_head_not_ws _ (trimLeft_head_not_ws s)

theorem trimRight_getLast_not_ws (s : Str) :
    ∀ c, (trimRight s).getLast? = some c → isWs c = false := by
  intro c h
  rw [List.getLast?_eq_head?_reverse] at h
  unfold trimRight at h
  rw [List.reverse_reverse] at h
  exact trimLeft_head_not_ws _ c h

theorem getLast?_trimLeft (s : Str) (h : trimLeft s ≠ []) :
    (trimLeft s).getLast? = s.getLast? := by
  obtain ⟨pre, hpre⟩ := List.dropWhile_suffix (l := s) (fun c => isWs c)
  conv_rhs => rw [← hpre]
  exact (List.getLast?_append_of_ne_nil pre h).symm

/-- `jsTrim` is idempotent; chunks returned by `splitBlocks` are trimmed. -/
theorem jsTrim_idem (s : Str) : jsTrim (jsTrim s) = jsTrim s := by
  unfold jsTrim
  generalize hu : trimRight s = u
  -- step 1: the right trim is the identity on `trimLeft u`
  have h1 : trimRight (trimLeft u) = trimLeft u := by
    by_cases hne : trimLeft u = []
    · rw [hne]; rfl
    · unfold trimRight
      rw [trimLeft_of_head_not_ws]
      · exact List.reverse_reverse _
      · intro c hc
        rw [← List.getLast?_eq_head?_reverse, getLast?_trimLeft u hne, ← hu] at hc
        exact trimRight_getLast_not_ws s c hc
  rw [h1]
  exact trimLeft_idem u

theorem splitBlocks_mem_nonempty (raw : Str) :
    ∀ c ∈ splitBlocks raw, c.isEmpty = false := by
  intro c hc
  unfold splitBlocks at hc
  by_cases h : includesSub MARKER raw = true <;>
    simp [h, List.mem_filter] at hc <;>
    simpa using hc.2

theorem splitBlocks_mem_trimmed (raw : Str) :
    ∀ c ∈ splitBlocks raw, jsTrim c = c := by
  intro c hc
  unfold splitBlocks at hc
  by_cases h : includesSub MARKER raw = true <;>
    simp [h, List.mem_filter] at hc <;>
    obtain ⟨⟨s, _, rfl⟩, _⟩ := hc <;>
    exact jsTrim_idem s

/-- If a scan region has no split points, `splitScan` yields the single
segment `acc.reverse ++ s`. -/
theorem splitScan_of_noSplit (look1 look2 : Str → Bool) :
    ∀ (s : Str) (acc : Str) (als : Bool),
      noSplitScan look1 look2 acc.isEmpty als s = true →
      splitScan look1 look2 acc als s = [acc.reverse ++ s] := by
  intro s
  induction s with
  | nil => intro acc als _; simp [splitScan]
  | cons c rest ih =>
    intro acc als h
    unfold noSplitScan at h
    simp only [Bool.and_eq_true, Bool.not_eq_true'] at h
    obtain ⟨⟨h1, h2⟩, h3⟩ := h
    unfold splitScan
    rw [if_neg (by simp [h1]), if_neg (by simp [h2])]
    rw [ih (c :: acc) (isNl c) (by simpa using h3)]
    simp

/-- `heurSegs` keeps the whole text as one segment when there is no
heuristic split point. -/
theorem heurSegs_of_noSplit (raw : Str) (h : noHeurSplit raw = true) :
    heurSegs raw = [raw] := by
  have := splitScan_of_noSplit promptAhead disAhead raw [] true (by simpa [noHeurSplit] using h)
  simpa [heurSegs] using this

/-- Non-whitespace content is preserved by the heuristic scan: joining the
segments loses only the newline characters consumed at split points. -/
theorem splitScan_join_filter (look1 look2 : Str → Bool) :
    ∀ (s : Str) (acc : Str) (als : Bool),
      ((splitScan look1 look2 acc als s).foldr (· ++ ·) []).filter (fun c => !isWs c) =
        (acc.reverse ++ s).filter (fun c => !isWs c) := by
  intro s
  induction s with
  | nil => intro acc als; simp [splitScan]
  | cons c rest ih =>
    intro acc als
    unfold splitScan
    by_cases h1 : (c = '\n' && look1 rest) = true
    · rw [if_pos h1]
      simp only [Bool.and_eq_true, decide_eq_true_eq] at h1
      obtain ⟨hc, _⟩ := h1
      subst hc
      simp only [List.foldr_cons, List.filter_append]
      rw [ih [] true]
      simp [List.filter_cons, isWs]
    · rw [if_neg (by simp [h1])]
      by_cases h2 : (als && !acc.isEmpty && look2 (c :: rest)) = true
      · rw [if_pos h2]
        simp only [List.foldr_cons, List.filter_append]
        rw [ih [c] (isNl c)]
        simp
      · rw [if_neg h2]
        rw [ih (c :: acc) (isNl c)]
        simp

/-- A literal split never returns an empty list of segments. -/
theorem splitOnAux_ne_nil (sep : Str) :
    ∀ (fuel : Nat) (acc s : Str), splitOnAux sep fuel acc s ≠ [] := by
  intro fuel
  induction fuel with
  | zero => intro acc s; simp [splitOnAux]
  | succ n ih =>
    intro acc s
    cases s with
    | nil => simp [splitOnAux]
    | cons c rest =>
      unfold splitOnAux
      by_cases hq : sep.isPrefixOf (c :: rest) = true
      · simp [hq]
      · simp only [if_neg hq]
        exact ih (c :: acc) rest

/-- Splitting on a literal separator and joining with it reconstructs the
original text: the marker path of `splitBlocks` drops nothing. -/
theorem joinSep_splitOnAux (sep : Str) :
    ∀ (fuel : Nat) (s acc : Str),
      joinSep sep (splitOnAux sep fuel acc s) = acc.reverse ++ s := by
  intro fuel
  induction fuel with
  | zero => intro s acc; simp [splitOnAux, joinSep]
  | succ n ih =>
    intro s acc
    cases s with
    | nil => simp [splitOnAux, joinSep]
    | cons c rest =>
      unfold splitOnAux
      by_cases hp : sep.isPrefixOf (c :: rest) = true
      · rw [if_pos hp]
        have hpref : sep <+: (c :: rest) := by
          rwa [← List.isPrefixOf_iff_prefix]
        obtain ⟨t, ht⟩ := hpref
        have hdrop : List.drop sep.length (c :: rest) = t := by
          rw [← ht]; exact List.drop_left sep t
        rw [hdrop]
        have hjoin : joinSep sep (acc.reverse :: splitOnAux sep n [] t) =
            acc.reverse ++ sep ++ joinSep sep (splitOnAux sep n [] t) := by
          cases hsplit : splitOnAux sep n [] t with
          | nil => exact absurd hsplit (splitOnAux_ne_nil sep n [] t)
          | cons x xs => simp [joinSep]
        rw [hjoin, ih t []]
        simp [← ht]
      · rw [if_neg hp]
        rw [ih rest (c :: acc)]
        simp

/-- With no occurrence of the separator, a literal split returns the whole
text as the single segment. -/
theorem splitOnAux_of_not_includes (sep : Str) :
    ∀ (fuel : Nat) (s acc : Str), includesSub sep s = false →
      splitOnAux sep fuel acc s = [acc.reverse ++ s] := by
  intro fuel
  induction fuel with
  | zero => intro s acc _; simp [splitOnAux]
  | succ n ih =>
    intro s acc h
    cases s with
    | nil => simp [splitOnAux]
    | cons c rest =>
      unfold includesSub at h
      simp only [Bool.or_eq_false_iff] at h
      obtain ⟨ha, hb⟩ := h
      unfold splitOnAux
      rw [if_neg (by simp [ha])]
      rw [ih rest (c :: acc) hb]
      simp

theorem filter_trimLeft (s : Str) :
    (trimLeft s).filter (fun c => !isWs c) = s.filter (fun c => !isWs c) := by
  conv_rhs => rw [← List.takeWhile_append_dropWhile (p := fun c => isWs c) (l := s)]
  rw [List.filter_append]
  have hnil : (s.takeWhile (fun c => isWs c)).filter (fun c => !isWs c) = [] := by
    rw [List.filter_eq_nil_iff]
    intro a ha
    have := List.mem_takeWhile_imp ha
    simp [this]
  rw [hnil]
  simp [trimLeft]

theorem filter_trimRight (s : Str) :
    (trimRight s).filter (fun c => !isWs c) = s.filter (fun c => !isWs c) := by
  unfold trimRight
  rw [List.filter_reverse, filter_trimLeft, List.filter_reverse, List.reverse_reverse]

theorem filter_jsTrim (s : Str) :
    (jsTrim s).filter (fun c => !isWs c) = s.filter (fun c => !isWs c) := by
  unfold jsTrim
  rw [filter_trimLeft, filter_trimRight]

/-- Trimming the segments and dropping the empty ones loses only
whitespace. -/
theorem chunks_join_filter (l : List Str) :
    ((((l.map jsTrim).filter (fun s => !s.isEmpty)).foldr (· ++ ·) [])).filter
        (fun c => !isWs c) =
      (l.foldr (· ++ ·) []).filter (fun c => !isWs c) := by
  induction l with
  | nil => rfl
  | cons a t ih =>
    simp only [List.map_cons, List.filter_cons, List.foldr_cons, List.filter_append]
    by_cases h : (jsTrim a).isEmpty
    · have ha : (a.filter (fun c => !isWs c)) = [] := by
        rw [← filter_jsTrim]
        rw [List.isEmpty_iff] at h
        simp [h]
      simp only [h, Bool.not_true, if_false, ha, List.nil_append]
      exact ih
    · have hb : (!(jsTrim a).isEmpty) = true := by simp [h]
      simp only [hb, if_true, List.foldr_cons, List.filter_append]
      rw [filter_jsTrim, ih]

/-- C5 (amended).  `splitBlocks` returns non-empty, trimmed chunks in
original order; re-joining the marker segments with the marker
reconstructs the input exactly, and the chunks keep every non-whitespace
character of the marker segments (only whitespace and the consumed
newline split points are dropped).  When the input contains neither the
marker nor a heuristic split point and does not trim to nothing, the
whole trimmed text is returned as the single chunk.  (The original claim
fails for whitespace-only input, which yields no chunk at all, see the
counterexample.) -/
theorem c5_splitBlocks_spec (raw : Str) :
    (∀ c ∈ splitBlocks raw, c ≠ [] ∧ jsTrim c = c) ∧
    joinSep MARKER (markerSegs raw) = raw ∧
    ((splitBlocks raw).foldr (· ++ ·) []).filter (fun c => !isWs c) =
      ((markerSegs raw).foldr (· ++ ·) []).filter (fun c => !isWs c) ∧
    (includesSub MARKER raw = false → noHeurSplit raw = true → jsTrim raw ≠ [] →
      splitBlocks raw = [jsTrim raw]) := by
  refine ⟨?_, ?_, ?_, ?_⟩
  · intro c hc
    refine ⟨?_, splitBlocks_mem_trimmed raw c hc⟩
    have := splitBlocks_mem_nonempty raw c hc
    simpa [List.isEmpty_iff] using this
  · have := joinSep_splitOnAux MARKER (raw.length + 1) raw []
    simpa [markerSegs, splitOnStr] using this
  · by_cases h : includesSub MARKER raw = true
    · unfold splitBlocks
      rw [if_pos h]
      exact chunks_join_filter (markerSegs raw)
    · have hmk : markerSegs raw = [raw] := by
        have := splitOnAux_of_not_includes MARKER (raw.length + 1) raw []
          (by simpa using h)
        simpa [markerSegs, splitOnStr] using this
      unfold splitBlocks
      rw [if_neg (by simp [h]), hmk]
      rw [chunks_join_filter (heurSegs raw)]
      have := splitScan_join_filter promptAhead disAhead raw [] true
      simpa [heurSegs] using this
  · intro hmk hns hne
    have hseg : heurSegs raw = [raw] := heurSegs_of_noSplit raw hns
    unfold splitBlocks
    rw [if_neg (by simp [hmk]), hseg]
    simp only [List.map_cons, List.map_nil, List.filter_cons, List.filter_nil]
    have : (!(jsTrim raw).isEmpty) = true := by
      simpa [List.isEmpty_iff] using hne
    simp [this]

/-- C5 counterexample: a whitespace-only input has no marker and no
heuristic split point, yet `splitBlocks` returns no chunk at all rather
than the whole text as a single chunk. -/
theorem c5_counterexample :
    includesSub MARKER (str " ") = false ∧ noHeurSplit (str " ") = true ∧
    splitBlocks (str " ") = [] ∧ ¬ splitBlocks (str " ") = [str " "] := by
  refine ⟨by decide, by decide, by decide, by decide⟩

/-- Witness for C5 at a concrete input: a single-command capture with no
marker and no split point is returned whole (trimmed). -/
theorem c5_splitBlocks_spec_witness :
    splitBlocks (str "display version x") = [jsTrim (str "display version x")] :=
  (c5_splitBlocks_spec (str "display version x")).2.2.2
    (by decide) (by decide) (by decide)

/-! ### Numeric coercion -/

/-- C6: numeric coercion strips to the digit/sign (and dot, for floats)
characters and parses the remainder; a value that fails to parse becomes
`null` (never `0`, and `NaN` is mapped to `null` by the `Number.isFinite`
guard); `"45%"` coerces to the integer 45 and `"N/A"` to `null`. -/
theorem c6_numeric_coercion :
    toInt (str "45%") = some 45 ∧
    toInt (str "N/A") = none ∧
    toFloat (str "N/A") = none ∧
    toFloat (str "45%") = some 45 ∧
    (∀ v : Str, toInt v = jsParseInt (stripInt v)) ∧
    (∀ v : Str, toFloat v = jsParseFloat (stripFloat v)) ∧
    (∀ v : Str, jsParseInt (stripInt v) = none → toInt v = none) ∧
    (∀ (v : Str) (n : Int), toInt v = some n → jsParseInt (stripInt v) = some n) := by
  refine ⟨rfl, rfl, rfl, ?_, fun _ => rfl, fun _ => rfl, fun _ h => h, fun _ _ h => h⟩
  have h1 : toFloat (str "45%") = some ((natVal (str "45") : Rat) + fracVal []) := rfl
  have h2 : natVal (str "45") = 45 := by decide
  rw [h1, h2]
  norm_num [fracVal]

/-- Witness for C6: the failure case at the concrete input `"N/A"`. -/
theorem c6_numeric_coercion_witness : toInt (str "N/A") = none :=
  c6_numeric_coercion.2.2.2.2.2.2.1 (str "N/A") (by decide)

theorem trimLeft_cons_not_ws {c : Char} (t : Str) (h : isWs c = false) :
    trimLeft (c :: t) = c :: t := by
  simp [trimLeft, List.dropWhile_cons, h]

/-- Computation rule for `jsParseFloat` on a minus-signed token. -/
theorem jsParseFloat_minus (X : Str) :
    jsParseFloat ('-' :: X) =
      (if (X.takeWhile isDigitCh).isEmpty then
        (match X.dropWhile isDigitCh with
         | '.' :: t =>
           if (t.takeWhile isDigitCh).isEmpty then none
           else some (-(fracVal (t.takeWhile isDigitCh)))
         | _ => none)
      else
        some (-((natVal (X.takeWhile isDigitCh) : Rat) +
          fracVal (match X.dropWhile isDigitCh with
                   | '.' :: t => t.takeWhile isDigitCh
                   | _ => [])))) := rfl

/-- C7 (amended): `toFloat` keeps the `-` character in its strip class, so
every token of the shapes captured by the optical-module extractor
(`-digits`, `-digits.digits`, optionally suffixed with `dBm`) coerces to
exactly the negated decimal value.  No optical rx/tx power has its sign
flipped by the coercion. -/
theorem c7_toFloat_keeps_minus (ip fp : Str) (hip : ∀ c ∈ ip, isDigitCh c = true)
    (hne : ip ≠ []) (hfp : ∀ c ∈ fp, isDigitCh c = true)
    (withFrac withSuffix : Bool) :
    toFloat ('-' :: ip ++ (if withFrac then '.' :: fp else []) ++
        (if withSuffix then str "dBm" else [])) =
      some (-((natVal ip : Rat) + (if withFrac then fracVal fp else 0))) := by
  have hstrip : stripFloat ('-' :: ip ++ (if withFrac then '.' :: fp else []) ++
      (if withSuffix then str "dBm" else [])) =
      '-' :: (ip ++ (if withFrac then '.' :: fp else [])) := by
    unfold stripFloat
    rw [show ('-' :: ip ++ (if withFrac then '.' :: fp else []) ++
        (if withSuffix then str "dBm" else [])) =
        '-' :: (ip ++ ((if withFrac then '.' :: fp else []) ++
          (if withSuffix then str "dBm" else []))) by simp]
    rw [List.filter_cons_of_pos (by decide), List.filter_append, List.filter_append]
    have h1 : List.filter keepFloatCh ip = ip := by
      rw [List.filter_eq_self]
      intro a ha
      simp [keepFloatCh, hip a ha]
    have h2 : List.filter keepFloatCh (if withFrac then '.' :: fp else []) =
        (if withFrac then '.' :: fp else []) := by
      cases withFrac
      · rfl
      · simp only [if_true]
        rw [List.filter_eq_self]
        intro a ha
        rcases List.mem_cons.mp ha with h | h
        · subst h; decide
        · simp [keepFloatCh, hfp a h]
    have h3 : List.filter keepFloatCh (if withSuffix then str "dBm" else []) = [] := by
      cases withSuffix
      · rfl
      · decide
    rw [h1, h2, h3, List.append_nil]
  unfold toFloat
  rw [hstrip, jsParseFloat_minus]
  have htake : (ip ++ (if withFrac then '.' :: fp else [])).takeWhile isDigitCh = ip := by
    rw [List.takeWhile_append_of_pos hip]
    cases withFrac
    · simp
    · simp [List.takeWhile_cons, isDigitCh]
  have hdrop : (ip ++ (if withFrac then '.' :: fp else [])).dropWhile isDigitCh =
      (if withFrac then '.' :: fp else []) := by
    rw [List.dropWhile_append_of_pos hip]
    cases withFrac
    · simp
    · simp [List.dropWhile_cons, isDigitCh]
  rw [htake, hdrop]
  have hipne : ip.isEmpty = false := by simpa [List.isEmpty_iff] using hne
  rw [if_neg (by simp [hipne])]
  cases withFrac
  · simp [fracVal]
  · simp only [if_true]
    rw [List.takeWhile_eq_self_iff.mpr hfp]

/-- C7 counterexample (the negation of the claim as stated): there is no
optical-power token with a leading minus whose coercion flips the sign
to the positive magnitude. -/
theorem c7_counterexample :
    ¬ ∃ (ip fp : Str) (withFrac withSuffix : Bool) (v : Rat),
      (∀ c ∈ ip, isDigitCh c = true) ∧ ip ≠ [] ∧
      (∀ c ∈ fp, isDigitCh c = true) ∧
      v = (natVal ip : Rat) + (if withFrac then fracVal fp else 0) ∧ 0 < v ∧
      toFloat ('-' :: ip ++ (if withFrac then '.' :: fp else []) ++
          (if withSuffix then str "dBm" else [])) = some v := by
  rintro ⟨ip, fp, wf, ws, v, hip, hne, hfp, hv, hpos, heq⟩
  rw [c7_toFloat_keeps_minus ip fp hip hne hfp wf ws] at heq
  have hinj := Option.some.inj heq
  rw [← hv] at hinj
  have : v = 0 := by linarith
  rw [this] at hpos
  exact lt_irrefl 0 hpos

/-- Witness for C7 at the concrete token `-5.2`. -/
theorem c7_toFloat_keeps_minus_witness :
    toFloat ('-' :: str "5" ++ (if true then '.' :: str "2" else []) ++
        (if false then str "dBm" else [])) =
      some (-((natVal (str "5") : Rat) + (if true then fracVal (str "2") else 0))) :=
  c7_toFloat_keeps_minus (str "5") (str "2") (by decide) (by decide) (by decide)
    true false

/-! ### The dispatch loop: error capture and unmatched chunks -/

/-- C2: when the first matching route raises (returns an error message),
the dispatch loop catches it, appends an entry holding the message and
the (prompt-stripped, tail-cleaned) chunk text under the normalized
label, and continues with the remaining chunks unchanged — one bad
chunk never aborts the loop. -/
theorem c2_extractor_error_recorded
    (routes : List ((Str → Bool) × Extractor)) (hasCfg : Bool)
    (block : Str) (rest : List Str) (m : Model) (im : IMap)
    (ext : Extractor) (m' : Model) (im' : IMap) (e : Str)
    (hskip : (hasCfg && disCurAnchored (detectCommand block)) = false)
    (hroute : firstRoute routes (detectCommand block) = some ext)
    (herr : ext (stripCommandFromBlock block) m im = (m', im', some e)) :
    processBlocks routes hasCfg (block :: rest) (m, im) =
      processBlocks routes hasCfg rest
        ({ m' with raw_sections := (rsAppend m'.raw_sections
              (normalizeKey (detectCommand block))
              ⟨cleanTailPrompt (stripCommandFromBlock block), some e⟩) }, im') := by
  unfold processBlocks
  rw [List.foldl_cons]
  congr 1
  unfold processBlock
  rw [if_neg (by simp [hskip]), hroute]
  simp only
  rw [herr]

/-- Witness for C2 at a concrete registry and chunk: the error entry is
recorded and the loop proceeds. -/
theorem c2_extractor_error_recorded_witness :
    processBlocks [(fun _ => true, fun _ m im => (m, im, some (str "boom")))] false
        [str "display version"] (newModel, []) =
      processBlocks [(fun _ => true, fun _ m im => (m, im, some (str "boom")))] false []
        ({ newModel with raw_sections := (rsAppend newModel.raw_sections
              (normalizeKey (detectCommand (str "display version")))
              ⟨cleanTailPrompt (stripCommandFromBlock (str "display version")), some (str "boom")⟩) },
          []) :=
  c2_extractor_error_recorded _ false (str "display version") [] newModel []
    _ newModel [] (str "boom") rfl rfl rfl

/-- C3 (amended): a chunk whose label matches no route is recorded
without an error under its normalized label — except that a chunk whose
classifier result is the fallback label `unknown` is silently dropped
(the `cmd !== 'unknown'` guard), contrary to the original claim. -/
theorem c3_unmatched_chunk
    (routes : List ((Str → Bool) × Extractor)) (hasCfg : Bool)
    (block : Str) (rest : List Str) (m : Model) (im : IMap)
    (hskip : (hasCfg && disCurAnchored (detectCommand block)) = false)
    (hroute : firstRoute routes (detectCommand block) = none) :
    processBlocks routes hasCfg (block :: rest) (m, im) =
      processBlocks routes hasCfg rest
        (if detectCommand block = str "unknown" then (m, im)
         else
          ({ m with raw_sections := (rsAppend m.raw_sections
                (normalizeKey (detectCommand block))
                ⟨cleanTailPrompt (stripCommandFromBlock block), none⟩) }, im)) := by
  unfold processBlocks
  rw [List.foldl_cons]
  congr 1
  unfold processBlock
  rw [if_neg (by simp [hskip]), hroute]

/-- Witness for C3 on a chunk with an unmatched (non-`unknown`) label:
the chunk is recorded. -/
theorem c3_unmatched_chunk_witness :
    processBlocks [] false [str "weird output"] (newModel, []) =
      processBlocks [] false []
        (if detectCommand (str "weird output") = str "unknown" then (newModel, [])
         else
          ({ newModel with raw_sections := (rsAppend newModel.raw_sections
                (normalizeKey (detectCommand (str "weird output")))
                ⟨cleanTailPrompt (stripCommandFromBlock (str "weird output")), none⟩) }, [])) :=
  c3_unmatched_chunk [] false (str "weird output") [] newModel [] rfl rfl

/-- C3 counterexample: a chunk consisting of a bare prompt is classified
`unknown`; it matches no route, yet `parseFile` records nothing for it —
the chunk is silently discarded, contradicting the claim. -/
theorem c3_counterexample :
    detectCommand (str "<r>") = str "unknown" ∧
    splitBlocks (str "<r>") = [str "<r>"] ∧
    firstRoute [] (str "unknown") = none ∧
    (parseFileM (fun _ m im => (m, im, none)) [] [] (str "<r>")).raw_sections = [] := by
  exact ⟨by decide, by decide, rfl, by decide⟩

/-- C4: `parseFile` is deterministic — the model depends only on the file
content.  The hidden global interface map is reset at the start of each
parse (line 1151), so its incoming state (here an explicit argument)
cannot influence the result, and parsing the same content twice yields
structurally identical models (hence identical serialized output). -/
theorem c4_parseFile_deterministic (cfgExt : Extractor)
    (routes : List ((Str → Bool) × Extractor)) (g1 g2 : IMap) (raw : Str) :
    parseFileM cfgExt routes g1 raw = parseFileM cfgExt routes g2 raw := rfl

/-! ### Batch processing -/

theorem analyzeDirectoryM_go (cfgExt : Extractor)
    (routes : List ((Str → Bool) × Extractor)) (fsys : Str → FileStatus) :
    ∀ (files : List Str) (acc : List AnalysisResult),
      files.foldl
        (fun acc f =>
          match analyzeFileM cfgExt routes fsys f with
          | .ok r => acc ++ [r]
          | .error _ => acc)
        acc =
      acc ++ files.filterMap (fun f => (analyzeFileM cfgExt routes fsys f).toOption) := by
  intro files
  induction files with
  | nil => intro acc; simp
  | cons f t ih =>
    intro acc
    rw [List.foldl_cons, List.filterMap_cons]
    cases hf : analyzeFileM cfgExt routes fsys f with
    | ok r => rw [ih (acc ++ [r])]; simp [Except.toOption]
    | error e => rw [ih acc]; simp [Except.toOption]

/-- C8: the batch loop is strictly sequential and fault-isolated: the
returned list is exactly the successful analyses in file order (a
failing file contributes nothing and does not abort the batch).  In the
concrete three-file scenario with one unreadable file, exactly the two
successful entries are returned and the failing file reports its own
error. -/
theorem c8_analyzeDirectory_spec :
    (∀ (cfgExt : Extractor) (routes : List ((Str → Bool) × Extractor))
        (fsys : Str → FileStatus) (files : List Str),
      analyzeDirectoryM cfgExt routes fsys files =
        files.filterMap (fun f => (analyzeFileM cfgExt routes fsys f).toOption)) ∧
    (analyzeDirectoryM (fun _ m im => (m, im, none)) []
        (fun p => if p = str "b.log" then FileStatus.unreadable else FileStatus.content (str "x"))
        [str "a.log", str "b.log", str "c.log"] =
      [⟨str "parsed_a.json", none⟩, ⟨str "parsed_c.json", none⟩]) ∧
    (analyzeFileM (fun _ m im => (m, im, none)) []
        (fun p => if p = str "b.log" then FileStatus.unreadable else FileStatus.content (str "x"))
        (str "b.log") =
      .error (str "EACCES: permission denied, open b.log")) := by
  refine ⟨?_, by decide, by rfl⟩
  intro cfgExt routes fsys files
  unfold analyzeDirectoryM
  simpa using analyzeDirectoryM_go cfgExt routes fsys files []

/-! ### Absent vs. empty fields -/

/-- C9 (amended): in `p_display_elabel` a labelled field whose pattern
matches nowhere in the chunk is represented as `null` (none), but
`p_display_license_verbose` represents a missing labelled field as the
empty string — identical to an explicitly empty value — so absent and
empty are conflated there, contrary to the original claim. -/
theorem c9_absent_vs_empty :
    (∀ (b : Str) (m : Model) (im : IMap),
      searchAll (labelColonCapAt (str "manufacturer") notNlClass) b = none →
      searchAll (labelColonCapAt (str "vendorname") notNlClass) b = none →
      ∃ entry : Elabel,
        (p_display_elabel b m im).1.hardware.elabels = m.hardware.elabels ++ [entry] ∧
        entry.manufacturer = none) ∧
    (∀ p : Str,
      searchAll (twoWordColonCapAt (str "item") (str "name")) p = none →
      (licEntry p).item_name = []) := by
  constructor
  · intro b m im h1 h2
    unfold p_display_elabel
    simp only [h1, h2]
    cases searchAll (macLabelAt (str "chassis")) b <;>
      cases searchAll (macLabelAt (str "base")) b <;>
      exact ⟨_, rfl, rfl⟩
  · intro p h
    unfold licEntry
    rw [h]

/-- Witness for C9: the concrete license part `Sale name: X` has no item
label, and its record stores the empty string. -/
theorem c9_absent_vs_empty_witness :
    (licEntry (str "Sale name: X")).item_name = [] :=
  c9_absent_vs_empty.2 (str "Sale name: X") (by decide)

/-- C9 counterexample: a license part without an `Item name` line and a
license part with an explicitly empty `Item name:` value produce the
same record — the missing field is the empty string, not `null`. -/
theorem c9_counterexample :
    (p_display_license_verbose (str "Sale name: X") newModel []).1.licenses =
      [⟨str "X", [], [], [], []⟩] ∧
    (p_display_license_verbose (str "Sale name: X\nItem name: ") newModel []).1.licenses =
      [⟨str "X", [], [], [], []⟩] := by
  exact ⟨by decide, by decide⟩

theorem ifaceWF_nil : IfaceWF [] [] := by
  constructor
  · intro k i h; simp [lookupKey] at h
  · intro i r h; simp at h

theorem jsLower_ne_nil {s : Str} (h : s ≠ []) : jsLower s ≠ [] := by
  cases s with
  | nil => exact absurd rfl h
  | cons c t => simp [jsLower]

theorem jsLower_nil_of (s : Str) (h : jsLower s = []) : s = [] := by
  cases s with
  | nil => rfl
  | cons c t => simp [jsLower] at h

/-- WF states have pairwise distinct case-insensitive names. -/
theorem ifaceWF_pairwise {ifaces : List IfaceRec} {imap : IMap} (h : IfaceWF ifaces imap) :
    ifaces.Pairwise (fun a b => jsLower a.name ≠ jsLower b.name) := by
  rw [List.pairwise_iff_getElem]
  intro i j hi hj hij heq
  have h1 := h.complete i (ifaces[i]) (by simp [List.getElem?_eq_getElem hi])
  have h2 := h.complete j (ifaces[j]) (by simp [List.getElem?_eq_getElem hj])
  rw [heq] at h1
  rw [h1] at h2
  have := Option.some.inj h2
  omega

/-- WF states have non-empty record names. -/
theorem ifaceWF_names_ne_nil {ifaces : List IfaceRec} {imap : IMap}
    (h : IfaceWF ifaces imap) : ∀ r ∈ ifaces, r.name ≠ [] := by
  intro r hr hnil
  obtain ⟨i, hi, hget⟩ := List.getElem_of_mem hr
  have hl := h.complete i r (by rw [List.getElem?_eq_getElem hi, hget])
  obtain ⟨r', _, _, hne⟩ := h.dom _ _ hl
  exact hne (by rw [hnil]; rfl)

/-- Unfolding rules for `ensureInterface`. -/
theorem ensureInterface_empty (ifaces : List IfaceRec) (imap : IMap) (name : Str)
    (h : (jsLower name).isEmpty = true) :
    ensureInterface ifaces imap name = (ifaces, imap, none) := by
  simp [ensureInterface, h]

theorem ensureInterface_hit (ifaces : List IfaceRec) (imap : IMap) (name : Str) (idx : Nat)
    (h : (jsLower name).isEmpty = false) (hl : lookupKey imap (jsLower name) = some idx) :
    ensureInterface ifaces imap name = (ifaces, imap, some idx) := by
  simp [ensureInterface, h, hl]

theorem ensureInterface_miss (ifaces : List IfaceRec) (imap : IMap) (name : Str)
    (h : (jsLower name).isEmpty = false) (hl : lookupKey imap (jsLower name) = none) :
    ensureInterface ifaces imap name =
      (ifaces ++ [{ name := name }], (jsLower name, ifaces.length) :: imap,
        some ifaces.length) := by
  simp [ensureInterface, h, hl]

/-- `ensureInterface` keeps existing records at their indices. -/
theorem ensureInterface_frame (ifaces : List IfaceRec) (imap : IMap) (name : Str) :
    ∀ (j : Nat) (r : IfaceRec), ifaces[j]? = some r →
      (ensureInterface ifaces imap name).1[j]? = some r := by
  intro j r hj
  by_cases hk : (jsLower name).isEmpty = true
  · rw [ensureInterface_empty _ _ _ hk]; exact hj
  · rw [Bool.not_eq_true] at hk
    cases hl : lookupKey imap (jsLower name) with
    | some idx => rw [ensureInterface_hit _ _ _ idx hk hl]; exact hj
    | none =>
      rw [ensureInterface_miss _ _ _ hk hl]
      have hjlt : j < ifaces.length := by
        by_contra hge
        rw [List.getElem?_eq_none (by omega)] at hj
        cases hj
      rw [List.getElem?_append_left hjlt]
      exact hj

/-- `ensureInterface` never shrinks the record list. -/
theorem ensureInterface_length (ifaces : List IfaceRec) (imap : IMap) (name : Str) :
    ifaces.length ≤ (ensureInterface ifaces imap name).1.length := by
  by_cases hk : (jsLower name).isEmpty = true
  · rw [ensureInterface_empty _ _ _ hk]
  · rw [Bool.not_eq_true] at hk
    cases hl : lookupKey imap (jsLower name) with
    | some idx => rw [ensureInterface_hit _ _ _ idx hk hl]
    | none =>
      rw [ensureInterface_miss _ _ _ hk hl]
      simp

/-- `ensureInterface` preserves the registry invariant. -/
theorem ensureInterface_wf (ifaces : List IfaceRec) (imap : IMap) (name : Str)
    (h : IfaceWF ifaces imap) :
    IfaceWF (ensureInterface ifaces imap name).1 (ensureInterface ifaces imap name).2.1 := by
  by_cases hk : (jsLower name).isEmpty = true
  · rw [ensureInterface_empty _ _ _ hk]; exact h
  · rw [Bool.not_eq_true] at hk
    cases hl : lookupKey imap (jsLower name) with
    | some idx => rw [ensureInterface_hit _ _ _ idx hk hl]; exact h
    | none =>
      rw [ensureInterface_miss _ _ _ hk hl]
      have hkne : jsLower name ≠ [] := by
        intro hc; rw [hc] at hk; cases hk
      constructor
      · intro k i hki
        unfold lookupKey at hki
        by_cases hkeq : jsLower name = k
        · rw [if_pos hkeq] at hki
          have hi : i = ifaces.length := (Option.some.inj hki).symm
          subst hi
          refine ⟨{ name := name }, ?_, hkeq, ?_⟩
          · exact List.getElem?_concat_length ifaces _
          · rw [← hkeq]; exact hkne
        · rw [if_neg hkeq] at hki
          obtain ⟨r, hr, hrk, hne⟩ := h.dom k i hki
          have hlt : i < ifaces.length := by
            by_contra hge
            rw [List.getElem?_eq_none (by omega)] at hr
            cases hr
          exact ⟨r, by rw [List.getElem?_append_left hlt]; exact hr, hrk, hne⟩
      · intro i r hir
        by_cases hlt : i < ifaces.length
        · rw [List.getElem?_append_left hlt] at hir
          have hcm := h.complete i r hir
          unfold lookupKey
          rw [if_neg ?_]
          · exact hcm
          · intro hceq
            rw [hceq] at hl
            rw [hl] at hcm
            cases hcm
        · have hle : ifaces.length ≤ i := by omega
          rw [List.getElem?_append_right hle] at hir
          have hi : i = ifaces.length := by
            by_contra hne2
            rw [List.getElem?_eq_none (by simp; omega)] at hir
            cases hir
          subst hi
          simp only [Nat.sub_self, List.getElem?_cons_zero] 
          simp at hir
          unfold lookupKey
          rw [← hir]
          simp

/-- `listModify` with a name-preserving update keeps the invariant. -/
theorem listModify_getElem (l : List IfaceRec) (i : Nat) (f : IfaceRec → IfaceRec) :
    ∀ j, (listModify l i f)[j]? = if j = i then (l[j]?).map f else l[j]? := by
  induction l generalizing i with
  | nil => intro j; simp [listModify]
  | cons x t ih =>
    intro j
    cases i with
    | zero =>
      cases j with
      | zero => simp [listModify]
      | succ j' => simp [listModify]
    | succ i' =>
      cases j with
      | zero => simp [listModify]
      | succ j' =>
        simp only [listModify, List.getElem?_cons_succ]
        rw [ih i' j']
        by_cases hj : j' = i'
        · simp [hj]
        · simp [hj, Nat.succ_ne_succ]

theorem listModify_wf (ifaces : List IfaceRec) (imap : IMap) (i : Nat)
    (f : IfaceRec → IfaceRec) (hf : ∀ r, (f r).name = r.name)
    (h : IfaceWF ifaces imap) : IfaceWF (listModify ifaces i f) imap := by
  constructor
  · intro k i0 hki
    obtain ⟨r, hr, hrk, hne⟩ := h.dom k i0 hki
    rw [listModify_getElem]
    by_cases hi : i0 = i
    · refine ⟨f r, ?_, ?_, hne⟩
      · rw [if_pos hi, hr]; rfl
      · rw [hf r]; exact hrk
    · exact ⟨r, by rw [if_neg hi]; exact hr, hrk, hne⟩
  · intro i0 r hir
    rw [listModify_getElem] at hir
    by_cases hi : i0 = i
    · rw [if_pos hi] at hir
      obtain ⟨r0, hr0, hfr⟩ := Option.map_eq_some'.mp hir
      have hcm := h.complete i0 r0 hr0
      rw [← hfr, hf r0]
      exact hcm
    · rw [if_neg hi] at hir
      exact h.complete i0 r hir

/-- Fold preservation helper. -/
theorem foldl_preserves {α β : Type} {P : α → Prop} (step : α → β → α)
    (h : ∀ a x, P a → P (step a x)) :
    ∀ (l : List β) (a : α), P a → P (l.foldl step a) := by
  intro l
  induction l with
  | nil => intro a ha; exact ha
  | cons x t ih => intro a ha; exact ih _ (h a x ha)

theorem briefUpdate_name (p : List Str) (r : IfaceRec) :
    (briefUpdate p r).name = r.name := by
  unfold briefUpdate
  cases p[3]? <;> cases p[4]? <;> rfl

theorem cfgIfaceUpdate_name (blk : Str) (r : IfaceRec) :
    (cfgIfaceUpdate blk r).name = r.name := by
  unfold cfgIfaceUpdate
  cases matchKwLine (str "description") blk <;> cases matchIpAddress blk <;>
    cases matchIpv6 blk <;> cases matchVrf blk <;> cases matchBw blk <;> rfl

theorem cfgIfaceUpdate_status (blk : Str) (r : IfaceRec) :
    (cfgIfaceUpdate blk r).status = r.status := by
  unfold cfgIfaceUpdate
  cases matchKwLine (str "description") blk <;> cases matchIpAddress blk <;>
    cases matchIpv6 blk <;> cases matchVrf blk <;> cases matchBw blk <;> rfl

theorem cfgIfaceUpdate_protocol (blk : Str) (r : IfaceRec) :
    (cfgIfaceUpdate blk r).protocol = r.protocol := by
  unfold cfgIfaceUpdate
  cases matchKwLine (str "description") blk <;> cases matchIpAddress blk <;>
    cases matchIpv6 blk <;> cases matchVrf blk <;> cases matchBw blk <;> rfl

theorem briefRow_wf (acc : Model × IMap) (ln : Str) (h : StWF acc) :
    StWF (briefRow acc ln) := by
  unfold briefRow
  by_cases h1 : briefLineTest (jsTrim ln) = true
  · simp only [h1, if_true]
    by_cases h2 :
        3 ≤ (((splitWs2 (jsTrim ln)).map jsTrim).filter (fun s => !s.isEmpty)).length
    · simp only [if_pos h2]
      have hwf := ensureInterface_wf acc.1.interfaces acc.2
        ((((splitWs2 (jsTrim ln)).map jsTrim).filter (fun s => !s.isEmpty)).headD []) h
      cases hoidx : (ensureInterface acc.1.interfaces acc.2
          ((((splitWs2 (jsTrim ln)).map jsTrim).filter (fun s => !s.isEmpty)).headD [])).2.2 with
      | none =>
        simp only [hoidx]
        exact hwf
      | some idx =>
        simp only [hoidx]
        exact listModify_wf _ _ idx _ (briefUpdate_name _) hwf
    · simp only [if_neg h2]; exact h
  · simp only [h1, if_false]
    exact h

theorem p_display_interface_brief_wf (b : Str) (m : Model) (im : IMap)
    (h : IfaceWF m.interfaces im) :
    IfaceWF (p_display_interface_brief b m im).1.interfaces
      (p_display_interface_brief b m im).2 := by
  unfold p_display_interface_brief
  exact foldl_preserves briefRow briefRow_wf (linesOf b) (m, im) h

theorem cfgIfaceApply_wf (acc : Model × IMap) (blk : Str) (h : StWF acc) :
    StWF (cfgIfaceApply acc blk) := by
  unfold cfgIfaceApply
  by_cases h1 : (cfgIfaceName blk).isEmpty = true
  · simp only [h1, if_true]; exact h
  · simp only [h1, if_false]
    have hwf := ensureInterface_wf acc.1.interfaces acc.2 (cfgIfaceName blk) h
    cases hoidx : (ensureInterface acc.1.interfaces acc.2 (cfgIfaceName blk)).2.2 with
    | none => simp only [hoidx]; exact hwf
    | some idx =>
      simp only [hoidx]
      exact listModify_wf _ _ idx _ (cfgIfaceUpdate_name blk) hwf

theorem p_display_current_configuration_interfaces_wf (b : Str) (m : Model) (im : IMap)
    (h : IfaceWF m.interfaces im) :
    IfaceWF (p_display_current_configuration_interfaces b m im).1.interfaces
      (p_display_current_configuration_interfaces b m im).2 := by
  unfold p_display_current_configuration_interfaces
  exact foldl_preserves cfgIfaceApply cfgIfaceApply_wf _ (m, im) h

theorem framePres_refl (l : List IfaceRec) : FramePres l l :=
  fun _ r h => ⟨r, h, rfl, rfl, rfl⟩

theorem framePres_trans {a b c : List IfaceRec} (h1 : FramePres a b) (h2 : FramePres b c) :
    FramePres a c := by
  intro i r hr
  obtain ⟨r', hr', hn, hs, hp⟩ := h1 i r hr
  obtain ⟨r'', hr'', hn', hs', hp'⟩ := h2 i r' hr'
  exact ⟨r'', hr'', by rw [hn', hn], by rw [hs', hs], by rw [hp', hp]⟩

theorem cfgIfaceApply_frame (acc : Model × IMap) (blk : Str) :
    FramePres acc.1.interfaces (cfgIfaceApply acc blk).1.interfaces := by
  unfold cfgIfaceApply
  by_cases h1 : (cfgIfaceName blk).isEmpty = true
  · rw [if_pos h1]; exact framePres_refl _
  · rw [if_neg h1]
    cases hoidx : (ensureInterface acc.1.interfaces acc.2 (cfgIfaceName blk)).2.2 with
    | none =>
      simp only [hoidx]
      intro i r hr
      exact ⟨r, ensureInterface_frame _ _ _ i r hr, rfl, rfl, rfl⟩
    | some idx =>
      simp only [hoidx]
      intro i r hr
      have hr2 := ensureInterface_frame acc.1.interfaces acc.2 (cfgIfaceName blk) i r hr
      rw [listModify_getElem]
      by_cases hi : i = idx
      · refine ⟨cfgIfaceUpdate blk r, ?_, cfgIfaceUpdate_name blk r,
          cfgIfaceUpdate_status blk r, cfgIfaceUpdate_protocol blk r⟩
        rw [if_pos hi, hr2]
        rfl
      · exact ⟨r, by rw [if_neg hi]; exact hr2, rfl, rfl, rfl⟩

theorem cfg_pass_frame (b : Str) (m : Model) (im : IMap) :
    FramePres m.interfaces (p_display_current_configuration_interfaces b m im).1.interfaces := by
  unfold p_display_current_configuration_interfaces
  generalize cfgIfaceBlocks (cleanTailPrompt b) = blks
  induction blks generalizing m im with
  | nil => exact framePres_refl _
  | cons blk t ih =>
    rw [List.foldl_cons]
    exact framePres_trans (cfgIfaceApply_frame (m, im) blk)
      (by
        have := ih (cfgIfaceApply (m, im) blk).1 (cfgIfaceApply (m, im) blk).2
        simpa using this)

theorem firstRoute_mem (routes : List ((Str → Bool) × Extractor)) (cmd : Str)
    (f : Extractor) (h : firstRoute routes cmd = some f) :
    ∃ pr ∈ routes, pr.2 = f := by
  induction routes with
  | nil => cases h
  | cons pr t ih =>
    unfold firstRoute at h
    by_cases hp : pr.1 cmd = true
    · rw [if_pos hp] at h
      exact ⟨pr, List.mem_cons_self _ _, Option.some.inj h⟩
    · rw [if_neg hp] at h
      obtain ⟨q, hq, hqf⟩ := ih h
      exact ⟨q, List.mem_cons_of_mem _ hq, hqf⟩

theorem processBlock_wf (routes : List ((Str → Bool) × Extractor))
    (hroutes : ∀ pr ∈ routes, PreservesWF pr.2) (hasCfg : Bool)
    (acc : Model × IMap) (block : Str) (h : StWF acc) :
    StWF (processBlock routes hasCfg acc block) := by
  unfold processBlock
  by_cases hskip : (hasCfg && disCurAnchored (detectCommand block)) = true
  · simp only [hskip, if_true]; exact h
  · simp only [hskip, if_false]
    cases hr : firstRoute routes (detectCommand block) with
    | none =>
      simp only
      by_cases hu : detectCommand block = str "unknown"
      · simp only [hu, if_true]
        exact h
      · simp only [hu, if_false]
        exact h
    | some f =>
      simp only
      obtain ⟨pr, hpr, hprf⟩ := firstRoute_mem routes _ f hr
      have hp := hroutes pr hpr
      rw [hprf] at hp
      have := hp (stripCommandFromBlock block) acc.1 acc.2 h
      cases hf : f (stripCommandFromBlock block) acc.1 acc.2 with
      | mk m' rest =>
        cases rest with
        | mk im' oerr =>
          rw [hf] at this
          cases oerr with
          | none => exact this
          | some e => exact this

theorem processBlocks_wf (routes : List ((Str → Bool) × Extractor))
    (hroutes : ∀ pr ∈ routes, PreservesWF pr.2) (hasCfg : Bool)
    (blocks : List Str) (acc : Model × IMap) (h : StWF acc) :
    StWF (processBlocks routes hasCfg blocks acc) := by
  unfold processBlocks
  exact foldl_preserves _ (fun a x ha => processBlock_wf routes hroutes hasCfg a x ha)
    blocks acc h

theorem hostModel_interfaces (raw : Str) : (hostModel raw).interfaces = [] := by
  unfold hostModel
  cases hostnameMatch raw <;> rfl

theorem pass1_wf (cfgExt : Extractor) (raw : Str) (hc : PreservesWF cfgExt) :
    StWF (pass1 cfgExt raw) := by
  have h0 : IfaceWF (hostModel raw).interfaces [] := by
    rw [hostModel_interfaces]; exact ifaceWF_nil
  unfold pass1
  by_cases hcfg : hasCfgData raw = true
  · simp only [hcfg, if_true]
    have := hc (pass1Block raw) (hostModel raw) [] h0
    cases hf : cfgExt (pass1Block raw) (hostModel raw) [] with
    | mk m' rest =>
      cases rest with
      | mk im' oerr =>
        rw [hf] at this
        cases oerr with
        | none => exact this
        | some e => exact this
  · simp only [hcfg, if_false]
    exact h0

theorem uniqByKey_go_sublist {α : Type} (key : α → Str) :
    ∀ (l : List α) (seen : List Str), List.Sublist (uniqByKey.go key seen l) l := by
  intro l
  induction l with
  | nil => intro seen; simp [uniqByKey.go]
  | cons a t ih =>
    intro seen
    unfold uniqByKey.go
    by_cases hm : key a ∈ seen
    · rw [if_pos hm]
      exact List.Sublist.cons a (ih seen)
    · rw [if_neg hm]
      exact List.Sublist.cons₂ a (ih (key a :: seen))

theorem uniqByKey_sublist {α : Type} (key : α → Str) (l : List α) :
    List.Sublist (uniqByKey key l) l := uniqByKey_go_sublist key l []

/-! ### C1 and C10 -/

/-- C1: the interface registry keeps at most one record per
case-insensitive name.  (1) For every input text, the model returned by
`parseFileM` — with any configuration extractor and route table whose
extractors preserve the registry invariant, as all the embedded ones
do — has pairwise distinct lower-cased interface names.  (2) When a
brief-table chunk contributes status/protocol and a configuration chunk
later contributes fields for the same case-insensitive name, the
configuration pass reuses the records in place: every record of the
brief result survives at its index with name, status and protocol
intact (the merged record carries both field sets), and distinctness is
maintained. -/
theorem c1_interface_registry :
    (∀ (cfgExt : Extractor) (routes : List ((Str → Bool) × Extractor))
        (g : IMap) (raw : Str),
      PreservesWF cfgExt → (∀ pr ∈ routes, PreservesWF pr.2) →
      (parseFileM cfgExt routes g raw).interfaces.Pairwise
        (fun a b => jsLower a.name ≠ jsLower b.name)) ∧
    (∀ (bText cText : Str) (m : Model) (im : IMap), IfaceWF m.interfaces im →
      ((p_display_current_configuration_interfaces cText
          (p_display_interface_brief bText m im).1
          (p_display_interface_brief bText m im).2).1.interfaces.Pairwise
        (fun a b => jsLower a.name ≠ jsLower b.name)) ∧
      FramePres (p_display_interface_brief bText m im).1.interfaces
        (p_display_current_configuration_interfaces cText
          (p_display_interface_brief bText m im).1
          (p_display_interface_brief bText m im).2).1.interfaces) := by
  constructor
  · intro cfgExt routes g raw hc hr
    have h2 := processBlocks_wf routes hr (hasCfgData raw) (splitBlocks raw)
      (pass1 cfgExt raw) (pass1_wf cfgExt raw hc)
    have hpw := ifaceWF_pairwise h2
    show (cleanupModel _).interfaces.Pairwise _
    unfold cleanupModel
    exact List.Pairwise.sublist (uniqByKey_sublist _ _) hpw
  · intro bText cText m im h
    have h1 := p_display_interface_brief_wf bText m im h
    have h2 := p_display_current_configuration_interfaces_wf cText
      (p_display_interface_brief bText m im).1
      (p_display_interface_brief bText m im).2 h1
    refine ⟨ifaceWF_pairwise h2, ?_⟩
    exact cfg_pass_frame cText _ _

/-- Witness for C1: Scenario B — a brief-table row for
`GigabitEthernet0/0/1` followed by a configuration stanza with a
description yields the single merged record with both field sets. -/
theorem c1_interface_registry_witness :
    ((p_display_current_configuration_interfaces
        (str "interface GigabitEthernet0/0/1\n description WAN-LINK")
        (p_display_interface_brief (str "GigabitEthernet0/0/1   up   up") newModel []).1
        (p_display_interface_brief (str "GigabitEthernet0/0/1   up   up") newModel []).2).1.interfaces.Pairwise
      (fun a b => jsLower a.name ≠ jsLower b.name)) ∧
    (p_display_current_configuration_interfaces
        (str "interface GigabitEthernet0/0/1\n description WAN-LINK")
        (p_display_interface_brief (str "GigabitEthernet0/0/1   up   up") newModel []).1
        (p_display_interface_brief (str "GigabitEthernet0/0/1   up   up") newModel []).2).1.interfaces =
      [{ name := str "GigabitEthernet0/0/1", status := some (str "up"),
         protocol := some (str "up"), description := some (str "WAN-LINK") }] :=
  ⟨(c1_interface_registry.2 (str "GigabitEthernet0/0/1   up   up")
      (str "interface GigabitEthernet0/0/1\n description WAN-LINK") newModel []
      (by rw [show newModel.interfaces = [] from rfl]; exact ifaceWF_nil)).1,
   by decide⟩

/-- C10: `ensureInterface` with an empty name returns null and creates no
record; in a well-formed registry every record name is non-empty; the
update preserves the invariant; and a later sighting of an existing name
in any letter case returns the existing record unchanged — the stored
name stays exactly the first sighting's string. -/
theorem c10_ensureInterface_registry :
    (∀ (ifaces : List IfaceRec) (imap : IMap),
      ensureInterface ifaces imap [] = (ifaces, imap, none)) ∧
    (∀ (ifaces : List IfaceRec) (imap : IMap), IfaceWF ifaces imap →
      ∀ r ∈ ifaces, r.name ≠ []) ∧
    (∀ (ifaces : List IfaceRec) (imap : IMap) (name : Str), IfaceWF ifaces imap →
      IfaceWF (ensureInterface ifaces imap name).1 (ensureInterface ifaces imap name).2.1) ∧
    (∀ (ifaces : List IfaceRec) (imap : IMap) (name : Str) (idx : Nat) (r : IfaceRec),
      IfaceWF ifaces imap → ifaces[idx]? = some r → jsLower name = jsLower r.name →
      ensureInterface ifaces imap name = (ifaces, imap, some idx)) := by
  refine ⟨?_, ?_, ?_, ?_⟩
  · intro ifaces imap
    exact ensureInterface_empty ifaces imap [] rfl
  · intro ifaces imap h
    exact ifaceWF_names_ne_nil h
  · intro ifaces imap name h
    exact ensureInterface_wf ifaces imap name h
  · intro ifaces imap name idx r h hidx hcase
    have hl := h.complete idx r hidx
    obtain ⟨r', _, _, hne⟩ := h.dom _ _ hl
    have hkey : (jsLower name).isEmpty = false := by
      rw [hcase]
      cases hc : jsLower r.name with
      | nil => exact absurd hc hne
      | cons a t => rfl
    rw [← hcase] at hl
    exact ensureInterface_hit ifaces imap name idx hkey hl

/-- Witness for C10: the empty name creates nothing; a lower-case second
sighting of `GE0/0/1` reuses the record without renaming it. -/
theorem c10_ensureInterface_registry_witness :
    ensureInterface [] [] [] = ([], [], none) ∧
    ensureInterface [{ name := str "GE0/0/1" }] [(str "ge0/0/1", 0)] (str "ge0/0/1") =
      ([{ name := str "GE0/0/1" }], [(str "ge0/0/1", 0)], some 0) := by
  constructor
  · exact c10_ensureInterface_registry.1 [] []
  · refine c10_ensureInterface_registry.2.2.2 _ _ _ 0 { name := str "GE0/0/1" } ?_ (by decide)
      (by decide)
    constructor
    · intro k i hk
      unfold lookupKey at hk
      by_cases hkey : str "ge0/0/1" = k
      · rw [if_pos hkey] at hk
        refine ⟨{ name := str "GE0/0/1" }, ?_, ?_, ?_⟩
        · rw [show i = 0 from (Option.some.inj hk).symm]
          rfl
        · rw [← hkey]; decide
        · rw [← hkey]; decide
      · rw [if_neg hkey] at hk
        cases hk
    · intro i r hir
      cases i with
      | zero =>
        have : r = { name := str "GE0/0/1" } := (Option.some.inj hir).symm
        rw [this]
        decide
      | succ n => simp at hir

end Analyzer
